import Mathlib

/-!
# Photo registry chaincode (`chaincode/smartcontract.go`)

A shallow embedding of the `SmartContract` operations (`InitLedger`, `CreatePhoto`,
`QueryPhoto`, `DeletePhoto`, `PhotoExists`, `GetAllPhoto`) together with the two
collaborators they call: Go's `encoding/json` (specialised to the `Photo` record)
and the world-state stub (`GetState`, `PutState`, `DelState`, `GetStateByRange`).

Go strings and byte slices are sequences of bytes; a byte is a natural number below 256.
-/

namespace Chaincode

/-- Equality of results is decidable when equality of errors and of values is. -/
instance decEqExcept {ε α : Type} [DecidableEq ε] [DecidableEq α] : DecidableEq (Except ε α)
  | .ok a, .ok b =>
    if h : a = b then isTrue (congrArg Except.ok h) else isFalse (fun h2 => h (Except.ok.inj h2))
  | .error a, .error b =>
    if h : a = b then isTrue (congrArg Except.error h)
    else isFalse (fun h2 => h (Except.error.inj h2))
  | .ok _, .error _ => isFalse (fun h => Except.noConfusion h)
  | .error _, .ok _ => isFalse (fun h => Except.noConfusion h)

/-- A Go `string` or `[]byte`: a sequence of bytes (natural numbers below 256). -/
abbrev Bytes := List Nat

/-- The bytes of a string constant of the source (ASCII text: one byte per character). -/
def ascii (s : String) : Bytes := s.toList.map Char.toNat

/-! ## `unicode/utf8` -/

/-- The replacement rune `utf8.RuneError` (U+FFFD). -/
def RuneError : Nat := 0xFFFD

/-- `utf8.DecodeRune`: the first rune of `p` and its width in bytes.  An empty input gives
`(RuneError, 0)`, an ill-formed encoding gives `(RuneError, 1)`.  The masks and shifts of
the Go code are written with `%` and `*`. -/
def DecodeRune : Bytes → Nat × Nat
  | [] => (RuneError, 0)
  | p0 :: rest =>
    if p0 < 0x80 then (p0, 1)
    else if p0 < 0xC2 then (RuneError, 1)
    else if p0 < 0xE0 then
      match rest with
      | b1 :: _ =>
        if 0x80 ≤ b1 ∧ b1 ≤ 0xBF then ((p0 % 32) * 64 + b1 % 64, 2) else (RuneError, 1)
      | _ => (RuneError, 1)
    else if p0 < 0xF0 then
      match rest with
      | b1 :: b2 :: _ =>
        if (if p0 = 0xE0 then 0xA0 else 0x80) ≤ b1 ∧ b1 ≤ (if p0 = 0xED then 0x9F else 0xBF) then
          if 0x80 ≤ b2 ∧ b2 ≤ 0xBF then
            ((p0 % 16) * 4096 + (b1 % 64) * 64 + b2 % 64, 3)
          else (RuneError, 1)
        else (RuneError, 1)
      | _ => (RuneError, 1)
    else if p0 < 0xF5 then
      match rest with
      | b1 :: b2 :: b3 :: _ =>
        if (if p0 = 0xF0 then 0x90 else 0x80) ≤ b1 ∧ b1 ≤ (if p0 = 0xF4 then 0x8F else 0xBF) then
          if 0x80 ≤ b2 ∧ b2 ≤ 0xBF then
            if 0x80 ≤ b3 ∧ b3 ≤ 0xBF then
              ((p0 % 8) * 262144 + (b1 % 64) * 4096 + (b2 % 64) * 64 + b3 % 64, 4)
            else (RuneError, 1)
          else (RuneError, 1)
        else (RuneError, 1)
      | _ => (RuneError, 1)
    else (RuneError, 1)

/-- `utf8.AppendRune` on an empty buffer: the UTF-8 encoding of rune `r`; surrogates and
values above U+10FFFF are written as U+FFFD. -/
def AppendRune (r : Nat) : Bytes :=
  if r < 0x80 then [r]
  else if r ≤ 0x7FF then [0xC0 + r / 64, 0x80 + r % 64]
  else if 0x10FFFF < r ∨ (0xD800 ≤ r ∧ r ≤ 0xDFFF) then [0xEF, 0xBF, 0xBD]
  else if r ≤ 0xFFFF then [0xE0 + r / 4096, 0x80 + (r / 64) % 64, 0x80 + r % 64]
  else [0xF0 + r / 262144, 0x80 + (r / 4096) % 64, 0x80 + (r / 64) % 64, 0x80 + r % 64]

/-- Well-formed UTF-8: every position decodes to a rune, none to the error result
`(RuneError, 1)`. -/
def ValidUTF8 : Bytes → Bool
  | [] => true
  | b :: rest =>
    if b < 0x80 then ValidUTF8 rest
    else
      let d := DecodeRune (b :: rest)
      if d.1 = RuneError ∧ d.2 = 1 then false
      else
        match d.2, rest with
        | 2, _ :: r => ValidUTF8 r
        | 3, _ :: _ :: r => ValidUTF8 r
        | 4, _ :: _ :: _ :: r => ValidUTF8 r
        | _, _ => false

/-! ## `encoding/json`: encoding -/

/-- The table `hex = "0123456789abcdef"` of `encoding/json`. -/
def hexDigit (n : Nat) : Nat := if n < 10 then 48 + n else 87 + n

/-- One ASCII byte of a string as `appendString` writes it with `escapeHTML` set (what
`json.Marshal` uses): the bytes of `htmlSafeSet` are copied, the others escaped.  Backspace
and form feed are written with their short escapes, as Go 1.22 and later do; earlier
versions write them as backslash-`u` escapes, which read back as the same bytes. -/
def escapeByte (b : Nat) : Bytes :=
  if 0x20 ≤ b ∧ b ≠ 0x22 ∧ b ≠ 0x26 ∧ b ≠ 0x3C ∧ b ≠ 0x3E ∧ b ≠ 0x5C then [b]
  else if b = 0x5C ∨ b = 0x22 then [0x5C, b]
  else if b = 0x08 then [0x5C, 0x62]
  else if b = 0x0C then [0x5C, 0x66]
  else if b = 0x0A then [0x5C, 0x6E]
  else if b = 0x0D then [0x5C, 0x72]
  else if b = 0x09 then [0x5C, 0x74]
  else [0x5C, 0x75, 0x30, 0x30, hexDigit (b / 16), hexDigit (b % 16)]

/-- The loop of `appendString`: the contents of the JSON string literal for `s`, without the
surrounding quotes.  ASCII goes through `escapeByte`; an ill-formed byte becomes the six
characters backslash `ufffd`; U+2028 and U+2029 become backslash `u2028` and backslash
`u2029`; every other rune is copied. -/
def appendStringBody : Bytes → Bytes
  | [] => []
  | b :: rest =>
    if b < 0x80 then escapeByte b ++ appendStringBody rest
    else
      let c := (DecodeRune (b :: rest)).1
      let size := (DecodeRune (b :: rest)).2
      if c = RuneError ∧ size = 1 then
        [0x5C, 0x75, 0x66, 0x66, 0x66, 0x64] ++ appendStringBody rest
      else
        let out : Bytes :=
          if c = 0x2028 ∨ c = 0x2029 then [0x5C, 0x75, 0x32, 0x30, 0x32, hexDigit (c % 16)]
          else (b :: rest).take size
        match size, rest with
        | 2, _ :: r => out ++ appendStringBody r
        | 3, _ :: _ :: r => out ++ appendStringBody r
        | 4, _ :: _ :: _ :: r => out ++ appendStringBody r
        | _, r => out ++ appendStringBody r

/-- `appendString`: the quoted JSON string literal for `s`. -/
def appendString (s : Bytes) : Bytes :=
  0x22 :: (appendStringBody s ++ [0x22])

/-- The record `Photo` of the contract, its fields in the order of the Go declaration. -/
structure Photo where
  PhotoID : Bytes
  UserName : Bytes
  PhotoHash : Bytes
  deriving DecidableEq, Repr

/-- What `json.Unmarshal` can return as an error: a `SyntaxError` (the input is not JSON) or an
`UnmarshalTypeError` (a JSON value that does not fit the Go value it is stored in). -/
inductive JsonError where
  | malformed
  | typeMismatch
  deriving DecidableEq, Repr

/-- The JSON name `photoID` of field `PhotoID`. -/
def namePhotoID : Bytes := ascii "photoID"

/-- The JSON name `userName` of field `UserName`. -/
def nameUserName : Bytes := ascii "userName"

/-- The JSON name `photoHash` of field `PhotoHash`. -/
def namePhotoHash : Bytes := ascii "photoHash"

/-- The object the struct encoder writes for a `Photo`: the fields in declaration order, each
as `"name":"value"`, separated by commas, no white space. -/
def encodeStruct (p : Photo) : Bytes :=
  0x7B :: (appendString namePhotoID ++ 0x3A :: (appendString p.PhotoID ++
    0x2C :: (appendString nameUserName ++ 0x3A :: (appendString p.UserName ++
    0x2C :: (appendString namePhotoHash ++ 0x3A :: (appendString p.PhotoHash ++ [0x7D]))))))

/-- `json.Marshal(photo)`.  A struct of strings never makes `Marshal` fail. -/
def Marshal (p : Photo) : Except JsonError Bytes :=
  .ok (encodeStruct p)

/-! ## `encoding/json`: decoding -/

/-- The white space of the JSON scanner (`isSpace`): space, tab, carriage return, newline. -/
def isSpace (c : Nat) : Bool := c = 0x20 || c = 0x09 || c = 0x0D || c = 0x0A

/-- The input after its leading white space. -/
def skipSpace : Bytes → Bytes
  | [] => []
  | c :: rest => if isSpace c then skipSpace rest else c :: rest

/-- A decimal digit. -/
def isDigit (c : Nat) : Bool := 0x30 ≤ c && c ≤ 0x39

/-- A hexadecimal digit, either case. -/
def isHex (c : Nat) : Bool :=
  (0x30 ≤ c && c ≤ 0x39) || (0x61 ≤ c && c ≤ 0x66) || (0x41 ≤ c && c ≤ 0x46)

/-- The value of a hexadecimal digit. -/
def hexVal (c : Nat) : Nat :=
  if 0x30 ≤ c ∧ c ≤ 0x39 then c - 0x30
  else if 0x61 ≤ c ∧ c ≤ 0x66 then c - 0x61 + 10
  else c - 0x41 + 10

/-- The states of the scanner inside a string literal: `stateInString`, `stateInStringEsc`
(after a backslash) and `stateInStringEscU` to `stateInStringEscU123` (after backslash-`u`:
`inStringEscU n` reads one hexadecimal digit and expects `n` more after it). -/
inductive StringState where
  | inString
  | inStringEsc
  | inStringEscU (digits : Nat)

/-- The scanner inside a string literal, one byte per step: the literal's contents up to the
closing quote, and the input after that quote; `none` for a control character, a bad escape
or a missing closing quote. -/
def scanStringFrom : StringState → Bytes → Option (Bytes × Bytes)
  | _, [] => none
  | .inString, c :: rest =>
    if c = 0x22 then some ([], rest)
    else if c = 0x5C then (scanStringFrom .inStringEsc rest).map (fun r => (c :: r.1, r.2))
    else if c < 0x20 then none
    else (scanStringFrom .inString rest).map (fun r => (c :: r.1, r.2))
  | .inStringEsc, c :: rest =>
    if c = 0x62 ∨ c = 0x66 ∨ c = 0x6E ∨ c = 0x72 ∨ c = 0x74 ∨ c = 0x5C ∨ c = 0x2F ∨ c = 0x22 then
      (scanStringFrom .inString rest).map (fun r => (c :: r.1, r.2))
    else if c = 0x75 then
      (scanStringFrom (.inStringEscU 3) rest).map (fun r => (c :: r.1, r.2))
    else none
  | .inStringEscU digits, c :: rest =>
    if isHex c then
      (scanStringFrom (match digits with
        | 0 => .inString
        | d + 1 => .inStringEscU d) rest).map (fun r => (c :: r.1, r.2))
    else none

/-- A string literal after its opening quote. -/
def scanString (bs : Bytes) : Option (Bytes × Bytes) :=
  scanStringFrom .inString bs

/-- `getu4`: the code unit of a leading backslash-`u` escape with four hexadecimal digits,
`none` (Go: `-1`) when the input does not start with one. -/
def getu4 : Bytes → Option Nat
  | 0x5C :: 0x75 :: h1 :: h2 :: h3 :: h4 :: _ =>
    if isHex h1 ∧ isHex h2 ∧ isHex h3 ∧ isHex h4 then
      some (hexVal h1 * 4096 + hexVal h2 * 256 + hexVal h3 * 16 + hexVal h4)
    else none
  | _ => none

/-- `utf16.DecodeRune`: the code point of a surrogate pair, U+FFFD when the two code units are
not a high surrogate followed by a low one (the second is `none` when `getu4` gave `-1`). -/
def utf16DecodeRune (r1 : Nat) (r2 : Option Nat) : Nat :=
  match r2 with
  | some r2 =>
    if 0xD800 ≤ r1 ∧ r1 < 0xDC00 ∧ 0xDC00 ≤ r2 ∧ r2 < 0xE000 then
      (r1 - 0xD800) * 1024 + (r2 - 0xDC00) + 0x10000
    else 0xFFFD
  | none => 0xFFFD

/-- One turn of the main loop of `unquoteBytes` at the head of the rest of the literal: the
bytes it writes and the number of bytes it reads.  An escape is replaced by what it stands
for (a backslash-`u` escape by the UTF-8 encoding of its code point, a surrogate pair by one
rune, a lone surrogate by U+FFFD); any other rune is decoded and written again, which turns
an ill-formed byte into U+FFFD.  `none` is the `ok = false` of the Go function, which the
scanner's validation excludes. -/
def unquoteStep : Bytes → Option (Bytes × Nat)
  | [] => none
  | c :: rest =>
    if c = 0x5C then
      match rest with
      | [] => none
      | e :: rest2 =>
        if e = 0x22 ∨ e = 0x5C ∨ e = 0x2F ∨ e = 0x27 then some ([e], 2)
        else if e = 0x62 then some ([0x08], 2)
        else if e = 0x66 then some ([0x0C], 2)
        else if e = 0x6E then some ([0x0A], 2)
        else if e = 0x72 then some ([0x0D], 2)
        else if e = 0x74 then some ([0x09], 2)
        else if e = 0x75 then
          match getu4 (c :: e :: rest2) with
          | none => none
          | some rr =>
            if 0xD800 ≤ rr ∧ rr < 0xE000 then
              let dec := utf16DecodeRune rr (getu4 (rest2.drop 4))
              if dec ≠ 0xFFFD then some (AppendRune dec, 12)
              else some (AppendRune 0xFFFD, 6)
            else some (AppendRune rr, 6)
        else none
    else if c = 0x22 ∨ c < 0x20 then none
    else if c < 0x80 then some ([c], 1)
    else some (AppendRune (DecodeRune (c :: rest)).1, (DecodeRune (c :: rest)).2)

/-- The main loop of `unquoteBytes` over the contents of a string literal.  The Go loop moves
its read index by the number of bytes a turn has read; here the bytes a turn has read beyond
the first are passed over one by one, `skip` counting them. -/
def unquoteFrom : Nat → Bytes → Option Bytes
  | _, [] => some []
  | skip + 1, _ :: rest => unquoteFrom skip rest
  | 0, c :: rest =>
    match unquoteStep (c :: rest) with
    | none => none
    | some r => (unquoteFrom (r.2 - 1) rest).map (r.1 ++ ·)

/-- `unquoteBytes` on the contents of a string literal (the quotes taken off). -/
def unquote (s : Bytes) : Option Bytes :=
  unquoteFrom 0 s

/-- The input after a run of decimal digits. -/
def skipDigits : Bytes → Bytes
  | [] => []
  | c :: rest => if isDigit c then skipDigits rest else c :: rest

/-- The exponent of a number (`stateE`, `stateESign`, `stateE0`), started after the `e` or
`E`: an optional sign and at least one digit. -/
def scanExponent : Bytes → Option Bytes
  | [] => none
  | c :: rest =>
    if c = 0x2B ∨ c = 0x2D then
      match rest with
      | d :: rest2 => if isDigit d then some (skipDigits rest2) else none
      | [] => none
    else if isDigit c then some (skipDigits rest)
    else none

/-- What may follow the integer part of a number (`state0`, `stateDot`, `stateDot0`): an
optional fraction with at least one digit, then an optional exponent. -/
def scanFraction : Bytes → Option Bytes
  | [] => some []
  | c :: rest =>
    if c = 0x2E then
      match rest with
      | d :: rest2 =>
        if isDigit d then
          match skipDigits rest2 with
          | e :: rest3 => if e = 0x65 ∨ e = 0x45 then scanExponent rest3 else some (e :: rest3)
          | [] => some []
        else none
      | [] => none
    else if c = 0x65 ∨ c = 0x45 then scanExponent rest
    else some (c :: rest)

/-- The integer part of a number after an optional minus sign (`stateNeg`, `state0`,
`state1`), followed by `scanFraction`. -/
def scanDigits : Bytes → Option Bytes
  | [] => none
  | c :: rest =>
    if c = 0x30 then scanFraction rest
    else if 0x31 ≤ c ∧ c ≤ 0x39 then scanFraction (skipDigits rest)
    else none

/-- A JSON number literal at the head of the input; the result is the input after it. -/
def scanNumber : Bytes → Option Bytes
  | [] => none
  | c :: rest => if c = 0x2D then scanDigits rest else scanDigits (c :: rest)

/-- A parsed JSON value.  Keys and strings are held unquoted. -/
inductive JValue where
  | null
  | bool (b : Bool)
  | number
  | string (s : Bytes)
  | array (elems : List JValue)
  | object (members : List (Bytes × JValue))

/-- The nesting limit of the scanner (`maxNestingDepth`). -/
def maxNestingDepth : Nat := 10000

mutual

/-- One JSON value at the head of the input, after optional white space, and the input that
follows it.  `depth` is the number of arrays and objects open around it; `fuel` bounds the
number of nested calls. -/
def parseValue : Nat → Nat → Bytes → Option (JValue × Bytes)
  | 0, _, _ => none
  | fuel + 1, depth, bs =>
    match skipSpace bs with
    | [] => none
    | c :: rest =>
      if c = 0x7B then
        if maxNestingDepth < depth + 1 then none
        else
          match skipSpace rest with
          | 0x7D :: rest2 => some (.object [], rest2)
          | _ => (parseMembers fuel (depth + 1) rest).map (fun r => (.object r.1, r.2))
      else if c = 0x5B then
        if maxNestingDepth < depth + 1 then none
        else
          match skipSpace rest with
          | 0x5D :: rest2 => some (.array [], rest2)
          | _ => (parseElements fuel (depth + 1) rest).map (fun r => (.array r.1, r.2))
      else if c = 0x22 then
        match scanString rest with
        | some (lit, rest2) => (unquote lit).map (fun s => (.string s, rest2))
        | none => none
      else if c = 0x2D ∨ isDigit c then
        (scanNumber (c :: rest)).map (fun r => (.number, r))
      else
        match c :: rest with
        | 0x74 :: 0x72 :: 0x75 :: 0x65 :: rest2 => some (.bool true, rest2)
        | 0x66 :: 0x61 :: 0x6C :: 0x73 :: 0x65 :: rest2 => some (.bool false, rest2)
        | 0x6E :: 0x75 :: 0x6C :: 0x6C :: rest2 => some (.null, rest2)
        | _ => none

/-- The members of a non-empty object, started where a key is expected, up to and including
the closing brace. -/
def parseMembers : Nat → Nat → Bytes → Option (List (Bytes × JValue) × Bytes)
  | 0, _, _ => none
  | fuel + 1, depth, bs =>
    match skipSpace bs with
    | 0x22 :: rest =>
      match scanString rest with
      | some (lit, rest1) =>
        match unquote lit, skipSpace rest1 with
        | some key, 0x3A :: rest2 =>
          match parseValue fuel depth rest2 with
          | some (v, rest3) =>
            match skipSpace rest3 with
            | 0x2C :: rest4 =>
              (parseMembers fuel depth rest4).map (fun r => ((key, v) :: r.1, r.2))
            | 0x7D :: rest4 => some ([(key, v)], rest4)
            | _ => none
          | none => none
        | _, _ => none
      | none => none
    | _ => none

/-- The elements of a non-empty array, started where a value is expected, up to and
including the closing bracket. -/
def parseElements : Nat → Nat → Bytes → Option (List JValue × Bytes)
  | 0, _, _ => none
  | fuel + 1, depth, bs =>
    match parseValue fuel depth bs with
    | some (v, rest) =>
      match skipSpace rest with
      | 0x2C :: rest2 => (parseElements fuel depth rest2).map (fun r => (v :: r.1, r.2))
      | 0x5D :: rest2 => some ([v], rest2)
      | _ => none
    | none => none

end

/-- The whole input as one JSON value (`checkValid`): a value, white space around it, nothing
else.  Twice the length of the input, plus one, is fuel enough: more fuel never changes the
result. -/
def parseJSON (data : Bytes) : Option JValue :=
  match parseValue (2 * data.length + 1) 0 data with
  | some (v, rest) => if skipSpace rest = [] then some v else none
  | none => none

/-- Folding of an object key as `foldName` does it for the comparison with a field name:
ASCII letters to upper case, the long s (U+017F) to `S` and the Kelvin sign (U+212A) to `K`,
the only runes outside ASCII whose fold is an ASCII letter. -/
def foldName : Bytes → Bytes
  | [] => []
  | 0xC5 :: 0xBF :: rest => 0x53 :: foldName rest
  | 0xE2 :: 0x84 :: 0xAA :: rest => 0x4B :: foldName rest
  | c :: rest => (if 0x61 ≤ c ∧ c ≤ 0x7A then c - 0x20 else c) :: foldName rest

/-- The fields of `Photo`. -/
inductive Field where
  | photoID
  | userName
  | photoHash
  deriving DecidableEq, Repr

/-- The field an object key names: an exact match of the JSON name, else a match under
`foldName`; `none` for a key that names no field. -/
def fieldOf (key : Bytes) : Option Field :=
  if key = namePhotoID then some .photoID
  else if key = nameUserName then some .userName
  else if key = namePhotoHash then some .photoHash
  else if foldName key = foldName namePhotoID then some .photoID
  else if foldName key = foldName nameUserName then some .userName
  else if foldName key = foldName namePhotoHash then some .photoHash
  else none

/-- Assignment of a string to a field. -/
def Photo.set (p : Photo) (f : Field) (s : Bytes) : Photo :=
  match f with
  | .photoID => { p with PhotoID := s }
  | .userName => { p with UserName := s }
  | .photoHash => { p with PhotoHash := s }

/-- One member of the object being decoded into a `Photo`, on the record so far and the saved
error so far: a key that names no field is skipped; a string value is stored in its field;
`null` leaves the field as it is; any other value saves an `UnmarshalTypeError` (the first
saved error is kept) and decoding goes on. -/
def storeMember (st : Photo × Option JsonError) (m : Bytes × JValue) : Photo × Option JsonError :=
  match fieldOf m.1 with
  | none => st
  | some f =>
    match m.2 with
    | .string s => (st.1.set f s, st.2)
    | .null => st
    | _ => (st.1, st.2.orElse (fun _ => some .typeMismatch))

/-- `json.Unmarshal(data, &photo)` on a zero `photo`: the input is validated as JSON first; an
object fills the record member by member, `null` leaves it zero, every other value is an
`UnmarshalTypeError`.  A saved error is returned once the input has been read. -/
def Unmarshal (data : Bytes) : Except JsonError Photo :=
  match parseJSON data with
  | none => .error .malformed
  | some (.object members) =>
    match members.foldl storeMember (⟨[], [], []⟩, none) with
    | (p, none) => .ok p
    | (_, some e) => .error e
  | some .null => .ok ⟨[], [], []⟩
  | some _ => .error .typeMismatch

/-! ## The world state behind `ctx.GetStub()` -/

/-- An error returned by a call of the stub. -/
structure StubError where
  msg : Bytes
  deriving DecidableEq, Repr

/-- Modelled from the spec: the store of section 6, reached through `ctx.GetStub()`.  `state`
holds the key-value pairs in key order.  The store is external, so whether a call fails is
given from outside: `getErr`, `putErr`, `delErr`, `rangeErr` and `nextErr` say which calls of
`GetState`, `PutState`, `DelState`, `GetStateByRange` and of the iterator's `Next` (by its
position in the scan) return an error.  `openIterators` counts the range-scan cursors that
are open. -/
structure Stub where
  state : List (Bytes × Bytes)
  getErr : Bytes → Option StubError
  putErr : Bytes → Bytes → Option StubError
  delErr : Bytes → Option StubError
  rangeErr : Option StubError
  nextErr : Nat → Option StubError
  openIterators : Nat

/-- The value stored under `key`, `none` when the key is absent. -/
def lookupKey (key : Bytes) : List (Bytes × Bytes) → Option Bytes
  | [] => none
  | kv :: rest => if kv.1 = key then some kv.2 else lookupKey key rest

/-- The state without `key`. -/
def eraseKey (key : Bytes) (st : List (Bytes × Bytes)) : List (Bytes × Bytes) :=
  st.filter (fun kv => kv.1 ≠ key)

/-- The order of keys in a range scan: byte-wise lexicographic. -/
def keyLt : Bytes → Bytes → Bool
  | _, [] => false
  | [], _ :: _ => true
  | a :: as, b :: bs => a < b || (a = b && keyLt as bs)

/-- Insertion of a pair at its place in key order. -/
def insertSorted (key value : Bytes) : List (Bytes × Bytes) → List (Bytes × Bytes)
  | [] => [(key, value)]
  | kv :: rest =>
    if keyLt key kv.1 then (key, value) :: kv :: rest else kv :: insertSorted key value rest

/-- The state with `value` stored under `key`, replacing what was there. -/
def putKey (key value : Bytes) (st : List (Bytes × Bytes)) : List (Bytes × Bytes) :=
  insertSorted key value (eraseKey key st)

/-- Modelled from the spec: `get(key) -> bytes | absent`, the stub's `GetState`; `none` is
Go's `nil`. -/
def Stub.GetState (s : Stub) (key : Bytes) : Except StubError (Option Bytes) × Stub :=
  match s.getErr key with
  | some e => (.error e, s)
  | none => (.ok (lookupKey key s.state), s)

/-- Modelled from the spec: `put(key, bytes)`, an unconditional upsert, the stub's
`PutState`. -/
def Stub.PutState (s : Stub) (key value : Bytes) : Except StubError Unit × Stub :=
  match s.putErr key value with
  | some e => (.error e, s)
  | none => (.ok (), { s with state := putKey key value s.state })

/-- Modelled from the spec: `delete(key)`, an unconditional removal, the stub's `DelState`. -/
def Stub.DelState (s : Stub) (key : Bytes) : Except StubError Unit × Stub :=
  match s.delErr key with
  | some e => (.error e, s)
  | none => (.ok (), { s with state := eraseKey key s.state })

/-- Membership of a key in the range from `startKey` (included) to `endKey` (excluded); an
empty bound is no bound. -/
def inRange (startKey endKey key : Bytes) : Bool :=
  (startKey = [] || !keyLt key startKey) && (endKey = [] || keyLt key endKey)

/-- The cursor of a range scan: the pairs not yet returned and the number of pairs returned
so far. -/
structure Iterator where
  pending : List (Bytes × Bytes)
  position : Nat

/-- Modelled from the spec: `scan(startKey, endKey)`, the stub's `GetStateByRange`: a cursor
over the pairs of the range in key order, which is open until it is closed. -/
def Stub.GetStateByRange (s : Stub) (startKey endKey : Bytes) :
    Except StubError Iterator × Stub :=
  match s.rangeErr with
  | some e => (.error e, s)
  | none =>
    (.ok ⟨s.state.filter (fun kv => inRange startKey endKey kv.1), 0⟩,
      { s with openIterators := s.openIterators + 1 })

/-- Modelled from the spec: release of a scan cursor, the iterator's `Close`. -/
def Stub.closeIterator (s : Stub) : Stub :=
  { s with openIterators := s.openIterators - 1 }

/-! ## The contract -/

/-- The errors the contract returns: the two it formats itself, the two that wrap an error of
the stub in a message, and the errors of the stub and of `encoding/json` that it returns as
they are. -/
inductive Error where
  /-- The error `fmt.Errorf("the asset %s already exists", photoID)`. -/
  | alreadyExists (photoID : Bytes)
  /-- The error `fmt.Errorf("the photo %s does not exist", photoID)`. -/
  | notFound (photoID : Bytes)
  /-- The error `fmt.Errorf("failed to read from world state: %v", err)`. -/
  | readFailed (cause : StubError)
  /-- The error `fmt.Errorf("failed to put photo to world state. %v", err)`. -/
  | putFailed (cause : StubError)
  /-- An error of the stub, returned unchanged. -/
  | stub (cause : StubError)
  /-- An error of `json.Marshal` or `json.Unmarshal`, returned unchanged. -/
  | json (cause : JsonError)
  deriving DecidableEq, Repr

/-- The seed records of `InitLedger`: ids `1`, `2`, `3`, owners `Alice`, `Bob`, `Bob`, hashes
`hashvalue1`, `hashvalue2`, `hashvalue2`. -/
def seedPhotos : List Photo :=
  [ ⟨ascii "1", ascii "Alice", ascii "hashvalue1"⟩,
    ⟨ascii "2", ascii "Bob", ascii "hashvalue2"⟩,
    ⟨ascii "3", ascii "Bob", ascii "hashvalue2"⟩ ]

/-- The loop of `InitLedger` over the records still to be written. -/
def InitLedger.loop (s : Stub) : List Photo → Except Error Unit × Stub
  | [] => (.ok (), s)
  | photo :: rest =>
    match Marshal photo with
    | .error e => (.error (.json e), s)
    | .ok photoJSON =>
      match s.PutState photo.PhotoID photoJSON with
      | (.error e, s1) => (.error (.putFailed e), s1)
      | (.ok _, s1) => InitLedger.loop s1 rest

/-- `InitLedger`: every seed record is marshalled and put under its id; the first failure
ends the call. -/
def InitLedger (s : Stub) : Except Error Unit × Stub :=
  InitLedger.loop s seedPhotos

/-- `PhotoExists`: whether `GetState` returns bytes for the id. -/
def PhotoExists (s : Stub) (photoID : Bytes) : Except Error Bool × Stub :=
  match s.GetState photoID with
  | (.error e, s1) => (.error (.readFailed e), s1)
  | (.ok photoJSON, s1) => (.ok photoJSON.isSome, s1)

/-- `CreatePhoto`: fails when the id exists, else marshals the record and puts it under the
id. -/
def CreatePhoto (s : Stub) (photoID userName photoHash : Bytes) : Except Error Unit × Stub :=
  match PhotoExists s photoID with
  | (.error e, s1) => (.error e, s1)
  | (.ok true, s1) => (.error (.alreadyExists photoID), s1)
  | (.ok false, s1) =>
    match Marshal ⟨photoID, userName, photoHash⟩ with
    | .error e => (.error (.json e), s1)
    | .ok photoJSON =>
      match s1.PutState photoID photoJSON with
      | (.error e, s2) => (.error (.stub e), s2)
      | (.ok _, s2) => (.ok (), s2)

/-- `QueryPhoto`: reads the bytes under the id and unmarshals them. -/
def QueryPhoto (s : Stub) (photoID : Bytes) : Except Error Photo × Stub :=
  match s.GetState photoID with
  | (.error e, s1) => (.error (.readFailed e), s1)
  | (.ok none, s1) => (.error (.notFound photoID), s1)
  | (.ok (some photoJSON), s1) =>
    match Unmarshal photoJSON with
    | .error e => (.error (.json e), s1)
    | .ok photo => (.ok photo, s1)

/-- `DeletePhoto`: fails when the id does not exist, else deletes the key. -/
def DeletePhoto (s : Stub) (photoID : Bytes) : Except Error Unit × Stub :=
  match PhotoExists s photoID with
  | (.error e, s1) => (.error e, s1)
  | (.ok false, s1) => (.error (.notFound photoID), s1)
  | (.ok true, s1) =>
    match s1.DelState photoID with
    | (.error e, s2) => (.error (.stub e), s2)
    | (.ok _, s2) => (.ok (), s2)

/-- The loop of `GetAllPhoto` on the cursor's pending pairs and position: while the cursor
has a next pair, `Next` is called and the
value unmarshalled into a fresh record, which is appended to `assets`; an error of `Next` or
of `Unmarshal` ends the call. -/
def GetAllPhoto.loop (s : Stub) : List (Bytes × Bytes) → Nat → List Photo →
    Except Error (List Photo)
  | [], _, assets => .ok assets
  | kv :: rest, position, assets =>
    match s.nextErr position with
    | some e => .error (.stub e)
    | none =>
      match Unmarshal kv.2 with
      | .error e => .error (.json e)
      | .ok asset => GetAllPhoto.loop s rest (position + 1) (assets ++ [asset])

/-- `GetAllPhoto`: a range scan with empty bounds; once the cursor is open, its `Close` is
deferred, so it runs on every return. -/
def GetAllPhoto (s : Stub) : Except Error (List Photo) × Stub :=
  match s.GetStateByRange [] [] with
  | (.error e, s1) => (.error (.stub e), s1)
  | (.ok resultsIterator, s1) => (GetAllPhoto.loop s1 resultsIterator.pending resultsIterator.position [], s1.closeIterator)

/-! ## Notions used in the statements -/

/-- Bytes `b b1` are a well-formed two-byte encoding (first byte `C2` to `DF`, then a
continuation byte). -/
def IsRune2 (b b1 : Nat) : Prop := 0xC2 ≤ b ∧ b < 0xE0 ∧ 0x80 ≤ b1 ∧ b1 ≤ 0xBF

/-- Bytes `b b1 b2` are a well-formed three-byte encoding (the accept ranges of `E0` and `ED`
exclude overlong forms and surrogates). -/
def IsRune3 (b b1 b2 : Nat) : Prop :=
  0xE0 ≤ b ∧ b < 0xF0 ∧ (if b = 0xE0 then 0xA0 else 0x80) ≤ b1 ∧
    b1 ≤ (if b = 0xED then 0x9F else 0xBF) ∧ 0x80 ≤ b2 ∧ b2 ≤ 0xBF

/-- Bytes `b b1 b2 b3` are a well-formed four-byte encoding (the accept ranges of `F0` and
`F4` exclude overlong forms and values above U+10FFFF). -/
def IsRune4 (b b1 b2 b3 : Nat) : Prop :=
  0xF0 ≤ b ∧ b < 0xF5 ∧ (if b = 0xF0 then 0x90 else 0x80) ≤ b1 ∧
    b1 ≤ (if b = 0xF4 then 0x8F else 0xBF) ∧ 0x80 ≤ b2 ∧ b2 ≤ 0xBF ∧ 0x80 ≤ b3 ∧ b3 ≤ 0xBF

/-- The string with every ill-formed byte replaced by the three bytes of U+FFFD and every
well-formed rune kept: what a string becomes when it is marshalled and unmarshalled. -/
def coerceUTF8 : Bytes → Bytes
  | [] => []
  | b :: rest =>
    if b < 0x80 then b :: coerceUTF8 rest
    else
      let c := (DecodeRune (b :: rest)).1
      let size := (DecodeRune (b :: rest)).2
      if c = RuneError ∧ size = 1 then [0xEF, 0xBF, 0xBD] ++ coerceUTF8 rest
      else
        let out : Bytes := (b :: rest).take size
        match size, rest with
        | 2, _ :: r => out ++ coerceUTF8 r
        | 3, _ :: _ :: r => out ++ coerceUTF8 r
        | 4, _ :: _ :: _ :: r => out ++ coerceUTF8 r
        | _, r => out ++ coerceUTF8 r

/-- The record with each field passed through `coerceUTF8`. -/
def Photo.coerce (p : Photo) : Photo :=
  ⟨coerceUTF8 p.PhotoID, coerceUTF8 p.UserName, coerceUTF8 p.PhotoHash⟩

/-- The record's three fields are well-formed UTF-8. -/
def Photo.Valid (p : Photo) : Prop :=
  ValidUTF8 p.PhotoID = true ∧ ValidUTF8 p.UserName = true ∧ ValidUTF8 p.PhotoHash = true

instance (p : Photo) : Decidable p.Valid := by
  unfold Photo.Valid
  infer_instance

/-- A store with no key in which no call fails and no cursor is open. -/
def emptyStub : Stub :=
  { state := [], getErr := fun _ => none, putErr := fun _ _ => none, delErr := fun _ => none,
    rangeErr := none, nextErr := fun _ => none, openIterators := 0 }

/-- A call of `CreatePhoto` or of `DeletePhoto`. -/
inductive Call where
  | create (photoID userName photoHash : Bytes)
  | delete (photoID : Bytes)

/-- The store after a sequence of calls that all succeed, `none` when one of them fails. -/
def runCalls (s : Stub) : List Call → Option Stub
  | [] => some s
  | .create photoID userName photoHash :: rest =>
    match CreatePhoto s photoID userName photoHash with
    | (.ok _, s1) => runCalls s1 rest
    | (.error _, _) => none
  | .delete photoID :: rest =>
    match DeletePhoto s photoID with
    | (.ok _, s1) => runCalls s1 rest
    | (.error _, _) => none

/-- The number of `CreatePhoto` calls in a sequence. -/
def countCreates : List Call → Nat
  | [] => 0
  | .create _ _ _ :: rest => countCreates rest + 1
  | .delete _ :: rest => countCreates rest

/-- The number of `DeletePhoto` calls in a sequence. -/
def countDeletes : List Call → Nat
  | [] => 0
  | .create _ _ _ :: rest => countDeletes rest
  | .delete _ :: rest => countDeletes rest + 1

/-- A store for examples: key `1` holds the first seed record, key `9` holds the bytes
`exists`, which are not JSON; no call fails. -/
def sampleStub : Stub :=
  { emptyStub with
    state := [(ascii "1", encodeStruct ⟨ascii "1", ascii "Alice", ascii "hashvalue1"⟩),
      (ascii "9", ascii "exists")] }

/-- The store holds at most one pair per key, and every value is the encoding of a record:
what holds of every store built by the contract from the empty store. -/
def WrittenByContract (st : List (Bytes × Bytes)) : Prop :=
  (st.map Prod.fst).Nodup ∧ ∀ kv ∈ st, ∃ p : Photo, kv.2 = encodeStruct p

/-- The state after the puts of the loop of `InitLedger` for the given records, in order. -/
def putPhotos (photos : List Photo) (st : List (Bytes × Bytes)) : List (Bytes × Bytes) :=
  photos.foldl (fun acc photo => putKey photo.PhotoID (encodeStruct photo) acc) st

/-- A call of one of the three operations that write to the store. -/
inductive Op where
  | initLedger
  | createPhoto (photoID userName photoHash : Bytes)
  | deletePhoto (photoID : Bytes)

/-- The store after a call, whether the call succeeded or failed. -/
def applyOp (s : Stub) : Op → Stub
  | .initLedger => (InitLedger s).2
  | .createPhoto photoID userName photoHash => (CreatePhoto s photoID userName photoHash).2
  | .deletePhoto photoID => (DeletePhoto s photoID).2

/-- The store after a sequence of calls. -/
def applyOps (s : Stub) (ops : List Op) : Stub :=
  ops.foldl applyOp s

/-- Every pair of the store holds the encoding of a record whose id is the pair's key. -/
def KeysMatchIds (st : List (Bytes × Bytes)) : Prop :=
  ∀ kv ∈ st, ∃ p : Photo, kv.2 = encodeStruct p ∧ p.PhotoID = kv.1
/-! ## `unicode/utf8`: decoding and encoding a well-formed rune -/

theorem DecodeRune_two {b b1 : Nat} (h : IsRune2 b b1) (r : Bytes) :
    DecodeRune (b :: b1 :: r) = ((b % 32) * 64 + b1 % 64, 2) := by
  obtain ⟨h1, h2, h3, h4⟩ := h
  have e1 : ¬ b < 0x80 := by omega
  have e2 : ¬ b < 0xC2 := by omega
  simp only [DecodeRune, e1, e2, h2, h3, h4, if_true, if_false, and_self]

theorem DecodeRune_three {b b1 b2 : Nat} (h : IsRune3 b b1 b2) (r : Bytes) :
    DecodeRune (b :: b1 :: b2 :: r) = ((b % 16) * 4096 + (b1 % 64) * 64 + b2 % 64, 3) := by
  obtain ⟨h1, h2, h3, h4, h5, h6⟩ := h
  have e1 : ¬ b < 0x80 := by omega
  have e2 : ¬ b < 0xC2 := by omega
  have e3 : ¬ b < 0xE0 := by omega
  simp only [DecodeRune, e1, e2, e3, h2, h3, h4, h5, h6, if_true, if_false, and_self]

theorem DecodeRune_four {b b1 b2 b3 : Nat} (h : IsRune4 b b1 b2 b3) (r : Bytes) :
    DecodeRune (b :: b1 :: b2 :: b3 :: r) =
      ((b % 8) * 262144 + (b1 % 64) * 4096 + (b2 % 64) * 64 + b3 % 64, 4) := by
  obtain ⟨h1, h2, h3, h4, h5, h6, h7, h8⟩ := h
  have e1 : ¬ b < 0x80 := by omega
  have e2 : ¬ b < 0xC2 := by omega
  have e3 : ¬ b < 0xE0 := by omega
  have e4 : ¬ b < 0xF0 := by omega
  simp only [DecodeRune, e1, e2, e3, e4, h2, h3, h4, h5, h6, h7, h8, if_true, if_false, and_self]

/-- The shapes of the input of `DecodeRune` at a byte outside ASCII. -/
theorem DecodeRune_cases (b : Nat) (rest : Bytes) (hb : ¬ b < 0x80) :
    DecodeRune (b :: rest) = (RuneError, 1) ∨
    (∃ b1 r, rest = b1 :: r ∧ IsRune2 b b1) ∨
    (∃ b1 b2 r, rest = b1 :: b2 :: r ∧ IsRune3 b b1 b2) ∨
    (∃ b1 b2 b3 r, rest = b1 :: b2 :: b3 :: r ∧ IsRune4 b b1 b2 b3) := by
  by_cases h2 : b < 0xC2
  · left; simp [DecodeRune, hb, h2]
  by_cases h3 : b < 0xE0
  · cases rest with
    | nil => left; simp [DecodeRune, hb, h2, h3]
    | cons b1 r =>
      by_cases hc : 0x80 ≤ b1 ∧ b1 ≤ 0xBF
      · right; left; exact ⟨b1, r, rfl, by omega, h3, hc.1, hc.2⟩
      · left; simp [DecodeRune, hb, h2, h3, hc]
  by_cases h4 : b < 0xF0
  · match rest with
    | [] => left; simp [DecodeRune, hb, h2, h3, h4]
    | [_] => left; simp [DecodeRune, hb, h2, h3, h4]
    | b1 :: b2 :: r =>
      by_cases hc : (if b = 0xE0 then 0xA0 else 0x80) ≤ b1 ∧ b1 ≤ (if b = 0xED then 0x9F else 0xBF)
      · by_cases hd : 0x80 ≤ b2 ∧ b2 ≤ 0xBF
        · right; right; left; exact ⟨b1, b2, r, rfl, by omega, h4, hc.1, hc.2, hd.1, hd.2⟩
        · left; simp [DecodeRune, hb, h2, h3, h4, hc, hd]
      · left; simp [DecodeRune, hb, h2, h3, h4, hc]
  by_cases h5 : b < 0xF5
  · match rest with
    | [] => left; simp [DecodeRune, hb, h2, h3, h4, h5]
    | [_] => left; simp [DecodeRune, hb, h2, h3, h4, h5]
    | [_, _] => left; simp [DecodeRune, hb, h2, h3, h4, h5]
    | b1 :: b2 :: b3 :: r =>
      by_cases hc : (if b = 0xF0 then 0x90 else 0x80) ≤ b1 ∧ b1 ≤ (if b = 0xF4 then 0x8F else 0xBF)
      · by_cases hd : 0x80 ≤ b2 ∧ b2 ≤ 0xBF
        · by_cases he : 0x80 ≤ b3 ∧ b3 ≤ 0xBF
          · right; right; right
            exact ⟨b1, b2, b3, r, rfl, by omega, h5, hc.1, hc.2, hd.1, hd.2, he.1, he.2⟩
          · left; simp [DecodeRune, hb, h2, h3, h4, h5, hc, hd, he]
        · left; simp [DecodeRune, hb, h2, h3, h4, h5, hc, hd]
      · left; simp [DecodeRune, hb, h2, h3, h4, h5, hc]
  · left; simp [DecodeRune, hb, h2, h3, h4, h5]

theorem AppendRune_two {b b1 : Nat} (h : IsRune2 b b1) :
    AppendRune ((b % 32) * 64 + b1 % 64) = [b, b1] := by
  obtain ⟨h1, h2, h3, h4⟩ := h
  unfold AppendRune
  rw [if_neg (by omega), if_pos (by omega)]
  congr 1
  · omega
  · congr 1; omega

theorem AppendRune_three {b b1 b2 : Nat} (h : IsRune3 b b1 b2) :
    AppendRune ((b % 16) * 4096 + (b1 % 64) * 64 + b2 % 64) = [b, b1, b2] := by
  obtain ⟨h1, h2, h3, h4, h5, h6⟩ := h
  unfold AppendRune
  split_ifs at h3 h4 <;>
  · rw [if_neg (by omega), if_neg (by omega), if_neg (by omega), if_pos (by omega)]
    congr 1
    · omega
    · congr 1
      · omega
      · congr 1; omega

theorem AppendRune_four {b b1 b2 b3 : Nat} (h : IsRune4 b b1 b2 b3) :
    AppendRune ((b % 8) * 262144 + (b1 % 64) * 4096 + (b2 % 64) * 64 + b3 % 64) =
      [b, b1, b2, b3] := by
  obtain ⟨h1, h2, h3, h4, h5, h6, h7, h8⟩ := h
  unfold AppendRune
  split_ifs at h3 h4 <;>
  · rw [if_neg (by omega), if_neg (by omega), if_neg (by omega), if_neg (by omega)]
    congr 1
    · omega
    · congr 1
      · omega
      · congr 1
        · omega
        · congr 1; omega
/-! ## The string loops, one rune at a time -/

theorem appendStringBody_ascii {b : Nat} (hb : b < 0x80) (rest : Bytes) :
    appendStringBody (b :: rest) = escapeByte b ++ appendStringBody rest := by
  rw [appendStringBody, if_pos hb]

theorem appendStringBody_invalid {b : Nat} {rest : Bytes} (hb : ¬ b < 0x80)
    (h : DecodeRune (b :: rest) = (RuneError, 1)) :
    appendStringBody (b :: rest) =
      [0x5C, 0x75, 0x66, 0x66, 0x66, 0x64] ++ appendStringBody rest := by
  rw [appendStringBody, if_neg hb]
  simp [h]

theorem appendStringBody_two {b b1 : Nat} (h : IsRune2 b b1) (r : Bytes) :
    appendStringBody (b :: b1 :: r) = [b, b1] ++ appendStringBody r := by
  have hb : ¬ b < 0x80 := by have := h.1; omega
  rw [appendStringBody, if_neg hb]
  simp only [DecodeRune_two h]
  obtain ⟨h1, h2, h3, h4⟩ := h
  rw [if_neg (by simp), if_neg (by omega)]
  rfl
theorem appendStringBody_three {b b1 b2 : Nat} (h : IsRune3 b b1 b2) (r : Bytes) :
    appendStringBody (b :: b1 :: b2 :: r) =
      (if b = 0xE2 ∧ b1 = 0x80 ∧ (b2 = 0xA8 ∨ b2 = 0xA9) then
        [0x5C, 0x75, 0x32, 0x30, 0x32, b2 - 0x70]
      else [b, b1, b2]) ++ appendStringBody r := by
  have hb : ¬ b < 0x80 := by have := h.1; omega
  rw [appendStringBody, if_neg hb]
  simp only [DecodeRune_three h]
  obtain ⟨h1, h2, h3, h4, h5, h6⟩ := h
  rw [if_neg (by simp)]
  by_cases hc : b = 0xE2 ∧ b1 = 0x80 ∧ (b2 = 0xA8 ∨ b2 = 0xA9)
  · rw [if_pos hc]
    obtain ⟨rfl, rfl, hc | hc⟩ := hc <;> subst hc <;> rfl
  · rw [if_neg hc]
    have : ¬ ((b % 16) * 4096 + (b1 % 64) * 64 + b2 % 64 = 0x2028 ∨
        (b % 16) * 4096 + (b1 % 64) * 64 + b2 % 64 = 0x2029) := by
      split_ifs at h3 h4 <;> omega
    rw [if_neg this]
    rfl

theorem appendStringBody_four {b b1 b2 b3 : Nat} (h : IsRune4 b b1 b2 b3) (r : Bytes) :
    appendStringBody (b :: b1 :: b2 :: b3 :: r) = [b, b1, b2, b3] ++ appendStringBody r := by
  have hb : ¬ b < 0x80 := by have := h.1; omega
  rw [appendStringBody, if_neg hb]
  simp only [DecodeRune_four h]
  obtain ⟨h1, h2, h3, h4, h5, h6, h7, h8⟩ := h
  rw [if_neg (by simp), if_neg (by split_ifs at h3 h4 <;> omega)]
  rfl

theorem coerceUTF8_ascii {b : Nat} (hb : b < 0x80) (rest : Bytes) :
    coerceUTF8 (b :: rest) = b :: coerceUTF8 rest := by
  rw [coerceUTF8, if_pos hb]

theorem coerceUTF8_invalid {b : Nat} {rest : Bytes} (hb : ¬ b < 0x80)
    (h : DecodeRune (b :: rest) = (RuneError, 1)) :
    coerceUTF8 (b :: rest) = [0xEF, 0xBF, 0xBD] ++ coerceUTF8 rest := by
  rw [coerceUTF8, if_neg hb]
  simp [h]

theorem coerceUTF8_two {b b1 : Nat} (h : IsRune2 b b1) (r : Bytes) :
    coerceUTF8 (b :: b1 :: r) = [b, b1] ++ coerceUTF8 r := by
  have hb : ¬ b < 0x80 := by have := h.1; omega
  rw [coerceUTF8, if_neg hb]
  simp only [DecodeRune_two h]
  rw [if_neg (by simp)]
  rfl

theorem coerceUTF8_three {b b1 b2 : Nat} (h : IsRune3 b b1 b2) (r : Bytes) :
    coerceUTF8 (b :: b1 :: b2 :: r) = [b, b1, b2] ++ coerceUTF8 r := by
  have hb : ¬ b < 0x80 := by have := h.1; omega
  rw [coerceUTF8, if_neg hb]
  simp only [DecodeRune_three h]
  rw [if_neg (by simp)]
  rfl

theorem coerceUTF8_four {b b1 b2 b3 : Nat} (h : IsRune4 b b1 b2 b3) (r : Bytes) :
    coerceUTF8 (b :: b1 :: b2 :: b3 :: r) = [b, b1, b2, b3] ++ coerceUTF8 r := by
  have hb : ¬ b < 0x80 := by have := h.1; omega
  rw [coerceUTF8, if_neg hb]
  simp only [DecodeRune_four h]
  rw [if_neg (by simp)]
  rfl

theorem ValidUTF8_ascii {b : Nat} (hb : b < 0x80) (rest : Bytes) :
    ValidUTF8 (b :: rest) = ValidUTF8 rest := by
  rw [ValidUTF8, if_pos hb]

theorem ValidUTF8_invalid {b : Nat} {rest : Bytes} (hb : ¬ b < 0x80)
    (h : DecodeRune (b :: rest) = (RuneError, 1)) :
    ValidUTF8 (b :: rest) = false := by
  rw [ValidUTF8, if_neg hb]
  simp [h]

theorem ValidUTF8_two {b b1 : Nat} (h : IsRune2 b b1) (r : Bytes) :
    ValidUTF8 (b :: b1 :: r) = ValidUTF8 r := by
  have hb : ¬ b < 0x80 := by have := h.1; omega
  rw [ValidUTF8, if_neg hb]
  simp only [DecodeRune_two h]
  rw [if_neg (by simp)]

theorem ValidUTF8_three {b b1 b2 : Nat} (h : IsRune3 b b1 b2) (r : Bytes) :
    ValidUTF8 (b :: b1 :: b2 :: r) = ValidUTF8 r := by
  have hb : ¬ b < 0x80 := by have := h.1; omega
  rw [ValidUTF8, if_neg hb]
  simp only [DecodeRune_three h]
  rw [if_neg (by simp)]

theorem ValidUTF8_four {b b1 b2 b3 : Nat} (h : IsRune4 b b1 b2 b3) (r : Bytes) :
    ValidUTF8 (b :: b1 :: b2 :: b3 :: r) = ValidUTF8 r := by
  have hb : ¬ b < 0x80 := by have := h.1; omega
  rw [ValidUTF8, if_neg hb]
  simp only [DecodeRune_four h]
  rw [if_neg (by simp)]

/-- Induction over a byte string rune by rune: an ASCII byte, an ill-formed byte, or a
well-formed rune of two, three or four bytes is taken off the front. -/
theorem rune_induction {P : Bytes → Prop} (hnil : P [])
    (hascii : ∀ b rest, b < 0x80 → P rest → P (b :: rest))
    (hinvalid : ∀ b rest, ¬ b < 0x80 → DecodeRune (b :: rest) = (RuneError, 1) → P rest →
      P (b :: rest))
    (htwo : ∀ b b1 r, IsRune2 b b1 → P r → P (b :: b1 :: r))
    (hthree : ∀ b b1 b2 r, IsRune3 b b1 b2 → P r → P (b :: b1 :: b2 :: r))
    (hfour : ∀ b b1 b2 b3 r, IsRune4 b b1 b2 b3 → P r → P (b :: b1 :: b2 :: b3 :: r))
    (s : Bytes) : P s := by
  suffices H : ∀ n (s : Bytes), s.length ≤ n → P s from H s.length s le_rfl
  intro n
  induction n with
  | zero =>
    intro s hs
    cases s with
    | nil => exact hnil
    | cons _ _ => simp at hs
  | succ n ih =>
    intro s hs
    cases s with
    | nil => exact hnil
    | cons b rest =>
      simp only [List.length_cons, Nat.add_le_add_iff_right] at hs
      by_cases hb : b < 0x80
      · exact hascii b rest hb (ih rest hs)
      · rcases DecodeRune_cases b rest hb with h | ⟨b1, r, rfl, h⟩ | ⟨b1, b2, r, rfl, h⟩ |
          ⟨b1, b2, b3, r, rfl, h⟩
        · exact hinvalid b rest hb h (ih rest hs)
        · exact htwo b b1 r h (ih r (by simp at hs; omega))
        · exact hthree b b1 b2 r h (ih r (by simp at hs; omega))
        · exact hfour b b1 b2 b3 r h (ih r (by simp at hs; omega))

/-- A well-formed string is left as it is by `coerceUTF8`. -/
theorem coerceUTF8_of_valid (s : Bytes) : ValidUTF8 s = true → coerceUTF8 s = s := by
  induction s using rune_induction with
  | hnil => intro _; rfl
  | hascii b rest hb ih =>
    intro h
    rw [ValidUTF8_ascii hb] at h
    rw [coerceUTF8_ascii hb, ih h]
  | hinvalid b rest hb hd ih =>
    intro h
    rw [ValidUTF8_invalid hb hd] at h
    exact absurd h (by simp)
  | htwo b b1 r hr ih =>
    intro h
    rw [ValidUTF8_two hr] at h
    rw [coerceUTF8_two hr, ih h]; rfl
  | hthree b b1 b2 r hr ih =>
    intro h
    rw [ValidUTF8_three hr] at h
    rw [coerceUTF8_three hr, ih h]; rfl
  | hfour b b1 b2 b3 r hr ih =>
    intro h
    rw [ValidUTF8_four hr] at h
    rw [coerceUTF8_four hr, ih h]; rfl
/-! ## `encoding/json`: reading back a string literal -/

theorem scanString_plain {c : Nat} (h1 : 0x20 ≤ c) (h2 : c ≠ 0x22) (h3 : c ≠ 0x5C) (Y : Bytes) :
    scanString (c :: Y) = (scanString Y).map (fun r => (c :: r.1, r.2)) := by
  simp only [scanString, scanStringFrom, if_neg h2, if_neg h3, if_neg (show ¬ c < 0x20 by omega)]

theorem scanString_quote (Y : Bytes) : scanString (0x22 :: Y) = some ([], Y) := by
  simp [scanString, scanStringFrom]

theorem scanString_escape {e : Nat}
    (he : e = 0x62 ∨ e = 0x66 ∨ e = 0x6E ∨ e = 0x72 ∨ e = 0x74 ∨ e = 0x5C ∨ e = 0x2F ∨ e = 0x22)
    (Y : Bytes) :
    scanString (0x5C :: e :: Y) = (scanString Y).map (fun r => (0x5C :: e :: r.1, r.2)) := by
  simp only [scanString, scanStringFrom, if_pos he]
  simp [Option.map_map, Function.comp_def]

theorem scanString_unicode {h1 h2 h3 h4 : Nat}
    (hh : isHex h1 = true ∧ isHex h2 = true ∧ isHex h3 = true ∧ isHex h4 = true) (Y : Bytes) :
    scanString (0x5C :: 0x75 :: h1 :: h2 :: h3 :: h4 :: Y) =
      (scanString Y).map (fun r => (0x5C :: 0x75 :: h1 :: h2 :: h3 :: h4 :: r.1, r.2)) := by
  obtain ⟨a1, a2, a3, a4⟩ := hh
  simp only [scanString, scanStringFrom, a1, a2, a3, a4]
  simp [Option.map_map, Function.comp_def]

theorem isHex_hexDigit {n : Nat} (h : n < 16) : isHex (hexDigit n) = true := by
  interval_cases n <;> decide

theorem hexVal_hexDigit {n : Nat} (h : n < 16) : hexVal (hexDigit n) = n := by
  interval_cases n <;> decide

theorem scanString_escapeByte {b : Nat} (hb : b < 0x80) (Y : Bytes) :
    scanString (escapeByte b ++ Y) = (scanString Y).map (fun r => (escapeByte b ++ r.1, r.2)) := by
  unfold escapeByte
  split_ifs with c1 c2 c3 c4 c5 c6 c7
  · exact scanString_plain c1.1 c1.2.1 c1.2.2.2.2.2 Y
  · exact scanString_escape (by omega) Y
  · exact scanString_escape (by simp) Y
  · exact scanString_escape (by simp) Y
  · exact scanString_escape (by simp) Y
  · exact scanString_escape (by simp) Y
  · exact scanString_escape (by simp) Y
  · exact scanString_unicode ⟨by decide, by decide, isHex_hexDigit (by omega),
      isHex_hexDigit (by omega)⟩ Y

/-- The bytes a turn of the loop has read are passed over. -/
theorem unquoteFrom_skip (A Y : Bytes) : unquoteFrom A.length (A ++ Y) = unquoteFrom 0 Y := by
  induction A with
  | nil => rfl
  | cons a A ih => simpa [unquoteFrom] using ih

/-- A turn of the loop that reads the bytes `c :: A` and writes `out`. -/
theorem unquote_unit (c : Nat) (A out Y : Bytes)
    (h : unquoteStep (c :: (A ++ Y)) = some (out, A.length + 1)) :
    unquote (c :: (A ++ Y)) = (unquote Y).map (out ++ ·) := by
  simp only [unquote, unquoteFrom, h, Nat.add_sub_cancel, unquoteFrom_skip]

theorem unquote_plain {c : Nat} (h1 : 0x20 ≤ c) (h2 : c ≠ 0x22) (h3 : c ≠ 0x5C) (h4 : c < 0x80)
    (Y : Bytes) : unquote (c :: Y) = (unquote Y).map (c :: ·) := by
  have := unquote_unit c [] [c] Y (by
    simp only [unquoteStep, List.nil_append, if_neg h3,
      if_neg (show ¬ (c = 0x22 ∨ c < 0x20) by omega), if_pos h4]
    rfl)
  simpa using this

theorem unquote_escape {e x : Nat}
    (he : (e = 0x22 ∨ e = 0x5C ∨ e = 0x2F) ∧ x = e ∨ e = 0x62 ∧ x = 0x08 ∨ e = 0x66 ∧ x = 0x0C ∨
      e = 0x6E ∧ x = 0x0A ∨ e = 0x72 ∧ x = 0x0D ∨ e = 0x74 ∧ x = 0x09)
    (Y : Bytes) : unquote (0x5C :: e :: Y) = (unquote Y).map (x :: ·) := by
  have := unquote_unit 0x5C [e] [x] Y (by
    rcases he with ⟨h | h | h, rfl⟩ | ⟨rfl, rfl⟩ | ⟨rfl, rfl⟩ | ⟨rfl, rfl⟩ | ⟨rfl, rfl⟩ | ⟨rfl, rfl⟩ <;>
      simp [unquoteStep, *])
  simpa using this

theorem unquote_unicode (h1 h2 h3 h4 : Nat)
    (hh : isHex h1 = true ∧ isHex h2 = true ∧ isHex h3 = true ∧ isHex h4 = true)
    (hs : ¬ (0xD800 ≤ hexVal h1 * 4096 + hexVal h2 * 256 + hexVal h3 * 16 + hexVal h4 ∧
      hexVal h1 * 4096 + hexVal h2 * 256 + hexVal h3 * 16 + hexVal h4 < 0xE000))
    (Y : Bytes) :
    unquote (0x5C :: 0x75 :: h1 :: h2 :: h3 :: h4 :: Y) =
      (unquote Y).map
        (AppendRune (hexVal h1 * 4096 + hexVal h2 * 256 + hexVal h3 * 16 + hexVal h4) ++ ·) := by
  have := unquote_unit 0x5C [0x75, h1, h2, h3, h4]
    (AppendRune (hexVal h1 * 4096 + hexVal h2 * 256 + hexVal h3 * 16 + hexVal h4)) Y (by
    obtain ⟨a1, a2, a3, a4⟩ := hh
    simp [unquoteStep, getu4, a1, a2, a3, a4, hs])
  simpa using this
theorem unquote_escapeByte {b : Nat} (hb : b < 0x80) (Y : Bytes) :
    unquote (escapeByte b ++ Y) = (unquote Y).map (b :: ·) := by
  unfold escapeByte
  split_ifs with c1 c2 c3 c4 c5 c6 c7
  · exact unquote_plain c1.1 c1.2.1 c1.2.2.2.2.2 hb Y
  · exact unquote_escape (by omega) Y
  · subst c3; exact unquote_escape (by simp) Y
  · subst c4; exact unquote_escape (by simp) Y
  · subst c5; exact unquote_escape (by simp) Y
  · subst c6; exact unquote_escape (by simp) Y
  · subst c7; exact unquote_escape (by simp) Y
  · have e1 : hexVal 0x30 = 0 := by decide
    have e2 := hexVal_hexDigit (show b / 16 < 16 by omega)
    have e3 := hexVal_hexDigit (show b % 16 < 16 by omega)
    have := unquote_unicode 0x30 0x30 (hexDigit (b / 16)) (hexDigit (b % 16))
      ⟨by decide, by decide, isHex_hexDigit (by omega), isHex_hexDigit (by omega)⟩
      (by rw [e1, e2, e3]; omega) Y
    rw [e1, e2, e3] at this
    have e4 : 0 * 4096 + 0 * 256 + b / 16 * 16 + b % 16 = b := by omega
    rw [e4] at this
    simpa [AppendRune, hb] using this

theorem unquote_replacement (Y : Bytes) :
    unquote ([0x5C, 0x75, 0x66, 0x66, 0x66, 0x64] ++ Y) =
      (unquote Y).map ([0xEF, 0xBF, 0xBD] ++ ·) :=
  unquote_unicode 0x66 0x66 0x66 0x64
    (by decide) (by decide) Y

theorem unquote_separator {d : Nat} (hd : d = 0x38 ∨ d = 0x39) (Y : Bytes) :
    unquote ([0x5C, 0x75, 0x32, 0x30, 0x32, d] ++ Y) =
      (unquote Y).map ([0xE2, 0x80, d + 0x70] ++ ·) := by
  rcases hd with rfl | rfl
  · exact unquote_unicode 0x32 0x30 0x32 0x38
      (by decide) (by decide) Y
  · exact unquote_unicode 0x32 0x30 0x32 0x39
      (by decide) (by decide) Y

theorem unquote_two {b b1 : Nat} (h : IsRune2 b b1) (Y : Bytes) :
    unquote (b :: b1 :: Y) = (unquote Y).map ([b, b1] ++ ·) := by
  have h0 := h
  obtain ⟨h1, h2, h3, h4⟩ := h
  have := unquote_unit b [b1] [b, b1] Y (by
    simp only [unquoteStep, List.cons_append, List.nil_append, if_neg (show ¬ b = 0x5C by omega),
      if_neg (show ¬ (b = 0x22 ∨ b < 0x20) by omega), if_neg (show ¬ b < 0x80 by omega),
      DecodeRune_two h0, AppendRune_two h0]
    rfl)
  simpa using this

theorem unquote_three {b b1 b2 : Nat} (h : IsRune3 b b1 b2) (Y : Bytes) :
    unquote (b :: b1 :: b2 :: Y) = (unquote Y).map ([b, b1, b2] ++ ·) := by
  have h0 := h
  obtain ⟨h1, h2, h3, h4, h5, h6⟩ := h
  have := unquote_unit b [b1, b2] [b, b1, b2] Y (by
    simp only [unquoteStep, List.cons_append, List.nil_append, if_neg (show ¬ b = 0x5C by omega),
      if_neg (show ¬ (b = 0x22 ∨ b < 0x20) by omega), if_neg (show ¬ b < 0x80 by omega),
      DecodeRune_three h0, AppendRune_three h0]
    rfl)
  simpa using this

theorem unquote_four {b b1 b2 b3 : Nat} (h : IsRune4 b b1 b2 b3) (Y : Bytes) :
    unquote (b :: b1 :: b2 :: b3 :: Y) = (unquote Y).map ([b, b1, b2, b3] ++ ·) := by
  have h0 := h
  obtain ⟨h1, h2, h3, h4, h5, h6, h7, h8⟩ := h
  have := unquote_unit b [b1, b2, b3] [b, b1, b2, b3] Y (by
    simp only [unquoteStep, List.cons_append, List.nil_append, if_neg (show ¬ b = 0x5C by omega),
      if_neg (show ¬ (b = 0x22 ∨ b < 0x20) by omega), if_neg (show ¬ b < 0x80 by omega),
      DecodeRune_four h0, AppendRune_four h0]
    rfl)
  simpa using this

/-- Unquoting the literal written for `s` gives `s` with its ill-formed bytes replaced. -/
theorem unquote_appendStringBody (s : Bytes) :
    unquote (appendStringBody s) = some (coerceUTF8 s) := by
  induction s using rune_induction with
  | hnil => rfl
  | hascii b rest hb ih =>
    rw [appendStringBody_ascii hb, unquote_escapeByte hb, ih, coerceUTF8_ascii hb]; rfl
  | hinvalid b rest hb hd ih =>
    rw [appendStringBody_invalid hb hd, unquote_replacement, ih, coerceUTF8_invalid hb hd]; rfl
  | htwo b b1 r hr ih =>
    rw [appendStringBody_two hr, coerceUTF8_two hr]
    show unquote (b :: b1 :: appendStringBody r) = _
    rw [unquote_two hr, ih]; rfl
  | hthree b b1 b2 r hr ih =>
    rw [appendStringBody_three hr, coerceUTF8_three hr]
    split_ifs with hc
    · obtain ⟨rfl, rfl, hc⟩ := hc
      rw [unquote_separator (by omega), ih]
      rcases hc with rfl | rfl <;> rfl
    · show unquote (b :: b1 :: b2 :: appendStringBody r) = _
      rw [unquote_three hr, ih]; rfl
  | hfour b b1 b2 b3 r hr ih =>
    rw [appendStringBody_four hr, coerceUTF8_four hr]
    show unquote (b :: b1 :: b2 :: b3 :: appendStringBody r) = _
    rw [unquote_four hr, ih]; rfl

/-- The scanner reads the literal written for `s` up to its closing quote. -/
theorem scanString_appendStringBody (s X : Bytes) :
    scanString (appendStringBody s ++ 0x22 :: X) = some (appendStringBody s, X) := by
  induction s using rune_induction with
  | hnil => exact scanString_quote X
  | hascii b rest hb ih =>
    rw [appendStringBody_ascii hb, List.append_assoc, scanString_escapeByte hb, ih]; rfl
  | hinvalid b rest hb hd ih =>
    rw [appendStringBody_invalid hb hd, List.append_assoc]
    show scanString (0x5C :: 0x75 :: 0x66 :: 0x66 :: 0x66 :: 0x64 ::
      (appendStringBody rest ++ 0x22 :: X)) = _
    rw [scanString_unicode (by decide), ih]; rfl
  | htwo b b1 r hr ih =>
    rw [appendStringBody_two hr]
    obtain ⟨h1, h2, h3, h4⟩ := hr
    show scanString (b :: b1 :: (appendStringBody r ++ 0x22 :: X)) = _
    rw [scanString_plain (by omega) (by omega) (by omega),
      scanString_plain (by omega) (by omega) (by omega), ih]; rfl
  | hthree b b1 b2 r hr ih =>
    rw [appendStringBody_three hr]
    obtain ⟨h1, h2, h3, h4, h5, h6⟩ := hr
    split_ifs with hc
    · obtain ⟨rfl, rfl, hc⟩ := hc
      show scanString (0x5C :: 0x75 :: 0x32 :: 0x30 :: 0x32 :: (b2 - 0x70) ::
        (appendStringBody r ++ 0x22 :: X)) = _
      rw [scanString_unicode (by rcases hc with rfl | rfl <;> decide), ih]; rfl
    · show scanString (b :: b1 :: b2 :: (appendStringBody r ++ 0x22 :: X)) = _
      rw [scanString_plain (by omega) (by omega) (by omega),
        scanString_plain (by split_ifs at h3 <;> omega) (by split_ifs at h3 <;> omega)
          (by split_ifs at h3 <;> omega),
        scanString_plain (by omega) (by omega) (by omega), ih]; rfl
  | hfour b b1 b2 b3 r hr ih =>
    rw [appendStringBody_four hr]
    obtain ⟨h1, h2, h3, h4, h5, h6, h7, h8⟩ := hr
    show scanString (b :: b1 :: b2 :: b3 :: (appendStringBody r ++ 0x22 :: X)) = _
    rw [scanString_plain (by omega) (by omega) (by omega),
      scanString_plain (by split_ifs at h3 <;> omega) (by split_ifs at h3 <;> omega)
        (by split_ifs at h3 <;> omega),
      scanString_plain (by omega) (by omega) (by omega),
      scanString_plain (by omega) (by omega) (by omega), ih]; rfl
/-! ## `encoding/json`: reading back a marshalled record -/

theorem skipSpace_cons {c : Nat} (h : isSpace c = false) (rest : Bytes) :
    skipSpace (c :: rest) = c :: rest := by
  simp [skipSpace, h]

theorem appendString_append (s X : Bytes) :
    appendString s ++ X = 0x22 :: (appendStringBody s ++ 0x22 :: X) := by
  simp [appendString]

/-- The parser reads the literal written for `s` as the string `coerceUTF8 s`. -/
theorem parseValue_appendString (fuel depth : Nat) (s X : Bytes) :
    parseValue (fuel + 1) depth (appendString s ++ X) = some (.string (coerceUTF8 s), X) := by
  rw [appendString_append, parseValue, skipSpace_cons (by decide)]
  simp [scanString_appendStringBody, unquote_appendStringBody]

/-- The parser on the last member of an object whose value is a string. -/
theorem parseMembers_last (fuel depth : Nat) (k v X : Bytes) :
    parseMembers (fuel + 2) depth (appendString k ++ 0x3A :: (appendString v ++ 0x7D :: X)) =
      some ([(coerceUTF8 k, .string (coerceUTF8 v))], X) := by
  rw [appendString_append, parseMembers, skipSpace_cons (by decide)]
  simp only [scanString_appendStringBody, unquote_appendStringBody,
    skipSpace_cons (show isSpace 0x3A = false by decide), parseValue_appendString,
    skipSpace_cons (show isSpace 0x7D = false by decide)]

/-- The parser on a member of an object whose value is a string, with more to follow. -/
theorem parseMembers_more (fuel depth : Nat) (k v Y : Bytes) :
    parseMembers (fuel + 2) depth (appendString k ++ 0x3A :: (appendString v ++ 0x2C :: Y)) =
      (parseMembers (fuel + 1) depth Y).map
        (fun r => ((coerceUTF8 k, .string (coerceUTF8 v)) :: r.1, r.2)) := by
  rw [appendString_append, parseMembers, skipSpace_cons (by decide)]
  simp only [scanString_appendStringBody, unquote_appendStringBody,
    skipSpace_cons (show isSpace 0x3A = false by decide), parseValue_appendString,
    skipSpace_cons (show isSpace 0x2C = false by decide)]
theorem encodeStruct_length (p : Photo) : ∃ n, 2 * (encodeStruct p).length + 1 = n + 5 := by
  refine ⟨2 * (encodeStruct p).length + 1 - 5, ?_⟩
  have : 4 ≤ (encodeStruct p).length := by
    simp only [encodeStruct, appendString, List.length_cons, List.length_append]
    omega
  omega

/-- The parser reads what the struct encoder wrote: an object of three string members. -/
theorem parseJSON_encodeStruct (p : Photo) :
    parseJSON (encodeStruct p) =
      some (.object [(namePhotoID, .string (coerceUTF8 p.PhotoID)),
        (nameUserName, .string (coerceUTF8 p.UserName)),
        (namePhotoHash, .string (coerceUTF8 p.PhotoHash))]) := by
  obtain ⟨n, hn⟩ := encodeStruct_length p
  have k1 : coerceUTF8 namePhotoID = namePhotoID := by decide
  have k2 : coerceUTF8 nameUserName = nameUserName := by decide
  have k3 : coerceUTF8 namePhotoHash = namePhotoHash := by decide
  rw [parseJSON, hn]
  rw [encodeStruct, parseValue, skipSpace_cons (by decide)]
  simp only [if_true, appendString_append namePhotoID, skipSpace_cons (show isSpace 0x22 = false by decide)]
  rw [← appendString_append namePhotoID, parseMembers_more, parseMembers_more, parseMembers_last]
  simp [maxNestingDepth, k1, k2, k3, skipSpace]

/-- Unmarshalling what `Marshal` wrote gives the record with ill-formed bytes replaced. -/
theorem Unmarshal_encodeStruct (p : Photo) : Unmarshal (encodeStruct p) = .ok p.coerce := by
  rw [Unmarshal, parseJSON_encodeStruct]
  have f1 : fieldOf namePhotoID = some .photoID := by decide
  have f2 : fieldOf nameUserName = some .userName := by decide
  have f3 : fieldOf namePhotoHash = some .photoHash := by decide
  simp [storeMember, f1, f2, f3, Photo.set, Photo.coerce]

theorem Photo.coerce_of_valid {p : Photo} (h : p.Valid) : p.coerce = p := by
  obtain ⟨h1, h2, h3⟩ := h
  cases p
  simp only [Photo.coerce]
  rw [coerceUTF8_of_valid _ h1, coerceUTF8_of_valid _ h2, coerceUTF8_of_valid _ h3]
/-! ## The parser's fuel -/

theorem skipSpace_length_le (bs : Bytes) : (skipSpace bs).length ≤ bs.length := by
  induction bs with
  | nil => simp [skipSpace]
  | cons c rest ih =>
    rw [skipSpace]
    split
    · simp only [List.length_cons]; omega
    · exact le_rfl

theorem skipSpace_eq_cons_length {bs rest : Bytes} {c : Nat} (h : skipSpace bs = c :: rest) :
    rest.length < bs.length := by
  have := skipSpace_length_le bs
  rw [h, List.length_cons] at this
  omega

theorem scanStringFrom_length (bs : Bytes) :
    ∀ (st : StringState) (lit rest : Bytes), scanStringFrom st bs = some (lit, rest) →
      rest.length < bs.length := by
  induction bs with
  | nil => intro st lit rest h; simp [scanStringFrom] at h
  | cons c tail ih =>
    intro st lit rest h
    have key : ∀ st2, (scanStringFrom st2 tail).map (fun r => (c :: r.1, r.2)) = some (lit, rest) →
        rest.length < (c :: tail).length := by
      intro st2 h2
      cases h3 : scanStringFrom st2 tail with
      | none => simp [h3] at h2
      | some r =>
        obtain ⟨l2, r2⟩ := r
        simp only [h3, Option.map_some', Option.some.injEq, Prod.mk.injEq] at h2
        have := ih st2 l2 r2 h3
        rw [← h2.2, List.length_cons]
        omega
    cases st with
    | inString =>
      rw [scanStringFrom] at h
      split_ifs at h with h1 h2 h3
      · simp only [Option.some.injEq, Prod.mk.injEq] at h
        rw [← h.2, List.length_cons]; omega
      · exact key _ h
      · exact key _ h
    | inStringEsc =>
      rw [scanStringFrom] at h
      split_ifs at h with h1 h2
      · exact key _ h
      · exact key _ h
    | inStringEscU digits =>
      simp only [scanStringFrom] at h
      split_ifs at h with h1
      exact key _ h

theorem scanString_length {bs lit rest : Bytes} (h : scanString bs = some (lit, rest)) :
    rest.length < bs.length :=
  scanStringFrom_length bs _ lit rest h

theorem skipDigits_length_le (bs : Bytes) : (skipDigits bs).length ≤ bs.length := by
  induction bs with
  | nil => simp [skipDigits]
  | cons c rest ih =>
    rw [skipDigits]
    split
    · simp only [List.length_cons]; omega
    · exact le_rfl

theorem scanExponent_length {bs rest : Bytes} (h : scanExponent bs = some rest) :
    rest.length < bs.length := by
  cases bs with
  | nil => simp [scanExponent] at h
  | cons c tail =>
    rw [scanExponent.eq_def] at h
    simp only at h
    split_ifs at h with h1 h2
    · cases tail with
      | nil => simp at h
      | cons d tail2 =>
        simp only at h
        split_ifs at h
        simp only [Option.some.injEq] at h
        have := skipDigits_length_le tail2
        rw [← h]
        simp only [List.length_cons]
        omega
    · simp only [Option.some.injEq] at h
      have := skipDigits_length_le tail
      rw [← h]
      simp only [List.length_cons]
      omega

theorem scanFraction_length {bs rest : Bytes} (h : scanFraction bs = some rest) :
    rest.length ≤ bs.length := by
  cases bs with
  | nil =>
    simp only [scanFraction, Option.some.injEq] at h
    rw [← h]
  | cons c tail =>
    rw [scanFraction.eq_def] at h
    simp only at h
    split_ifs at h with h1 h2
    · cases tail with
      | nil => simp at h
      | cons d tail2 =>
        simp only at h
        split_ifs at h
        have hd := skipDigits_length_le tail2
        split at h
        · rename_i e rest3 he
          rw [he] at hd
          simp only [List.length_cons] at hd ⊢
          split_ifs at h
          · have := scanExponent_length h
            omega
          · simp only [Option.some.injEq] at h
            rw [← h]
            simp only [List.length_cons]
            omega
        · simp only [Option.some.injEq] at h
          rw [← h]
          simp
    · have := scanExponent_length h
      simp only [List.length_cons]
      omega
    · simp only [Option.some.injEq] at h
      rw [← h]

theorem scanNumber_length {bs rest : Bytes} (h : scanNumber bs = some rest) :
    rest.length < bs.length := by
  have hd : ∀ (xs ys : Bytes), scanDigits xs = some ys → ys.length < xs.length := by
    intro xs ys hx
    cases xs with
    | nil => simp [scanDigits] at hx
    | cons c tail =>
      rw [scanDigits] at hx
      split_ifs at hx
      · have := scanFraction_length hx
        simp only [List.length_cons]; omega
      · have := scanFraction_length hx
        have := skipDigits_length_le tail
        simp only [List.length_cons]; omega
  cases bs with
  | nil => simp [scanNumber] at h
  | cons c tail =>
    rw [scanNumber] at h
    split_ifs at h
    · have := hd _ _ h
      simp only [List.length_cons]; omega
    · exact hd _ _ h
theorem parse_length (fuel : Nat) :
    (∀ (depth : Nat) (bs : Bytes) (v : JValue) (rest : Bytes),
      parseValue fuel depth bs = some (v, rest) → rest.length < bs.length) ∧
    (∀ (depth : Nat) (bs : Bytes) (ms : List (Bytes × JValue)) (rest : Bytes),
      parseMembers fuel depth bs = some (ms, rest) → rest.length < bs.length) ∧
    (∀ (depth : Nat) (bs : Bytes) (es : List JValue) (rest : Bytes),
      parseElements fuel depth bs = some (es, rest) → rest.length < bs.length) := by
  induction fuel with
  | zero =>
    refine ⟨?_, ?_, ?_⟩ <;> intro depth bs _ rest h
    · simp [parseValue] at h
    · simp [parseMembers] at h
    · simp [parseElements] at h
  | succ fuel ih =>
    obtain ⟨ihv, ihm, ihe⟩ := ih
    refine ⟨?_, ?_, ?_⟩
    · intro depth bs v rest h
      rw [parseValue] at h
      split at h
      · exact absurd h (by simp)
      · rename_i c rest1 hs
        have hs1 := skipSpace_eq_cons_length hs
        have hs2 := skipSpace_length_le bs
        rw [hs, List.length_cons] at hs2
        split_ifs at h with h1 h2 h3 h4 h5 h6
        · split at h
          · rename_i rest2 hs3
            have := skipSpace_eq_cons_length hs3
            simp only [Option.some.injEq, Prod.mk.injEq] at h
            rw [← h.2]; omega
          · obtain ⟨r, hr, e⟩ := Option.map_eq_some'.mp h
            have := ihm _ _ _ _ (show parseMembers fuel (depth + 1) rest1 = some (r.1, r.2) from hr)
            simp only [Prod.mk.injEq] at e
            rw [← e.2]; omega
        · split at h
          · rename_i rest2 hs3
            have := skipSpace_eq_cons_length hs3
            simp only [Option.some.injEq, Prod.mk.injEq] at h
            rw [← h.2]; omega
          · obtain ⟨r, hr, e⟩ := Option.map_eq_some'.mp h
            have := ihe _ _ _ _ (show parseElements fuel (depth + 1) rest1 = some (r.1, r.2) from hr)
            simp only [Prod.mk.injEq] at e
            rw [← e.2]; omega
        · split at h
          · rename_i lit rest2 hs3
            have := scanString_length hs3
            obtain ⟨r, hr, e⟩ := Option.map_eq_some'.mp h
            simp only [Prod.mk.injEq] at e
            rw [← e.2]; omega
          · exact absurd h (by simp)
        · obtain ⟨r, hr, e⟩ := Option.map_eq_some'.mp h
          have := scanNumber_length hr
          simp only [Prod.mk.injEq] at e
          rw [← e.2]
          simp only [List.length_cons] at this
          omega
        · split at h
          · rename_i rest2 he
            simp only [List.cons.injEq] at he
            simp only [Option.some.injEq, Prod.mk.injEq] at h
            rw [← h.2]
            rw [he.2] at hs1
            simp only [List.length_cons] at hs1
            omega
          · rename_i rest2 he
            simp only [List.cons.injEq] at he
            simp only [Option.some.injEq, Prod.mk.injEq] at h
            rw [← h.2]
            rw [he.2] at hs1
            simp only [List.length_cons] at hs1
            omega
          · rename_i rest2 he
            simp only [List.cons.injEq] at he
            simp only [Option.some.injEq, Prod.mk.injEq] at h
            rw [← h.2]
            rw [he.2] at hs1
            simp only [List.length_cons] at hs1
            omega
          · exact absurd h (by simp)
    · intro depth bs ms rest h
      rw [parseMembers] at h
      split at h
      · rename_i rest0 hs
        have hs1 := skipSpace_eq_cons_length hs
        split at h
        · rename_i lit rest1 hs2
          have hs3 := scanString_length hs2
          split at h
          · rename_i key rest2 hu hs4
            have hs5 := skipSpace_eq_cons_length hs4
            split at h
            · rename_i v rest3 hv
              have hs6 := ihv _ _ _ _ hv
              split at h
              · rename_i rest4 hs7
                have hs8 := skipSpace_eq_cons_length hs7
                obtain ⟨r, hr, e⟩ := Option.map_eq_some'.mp h
                have := ihm _ _ _ _ (show parseMembers fuel depth rest4 = some (r.1, r.2) from hr)
                simp only [Prod.mk.injEq] at e
                rw [← e.2]; omega
              · rename_i rest4 hs7
                have hs8 := skipSpace_eq_cons_length hs7
                simp only [Option.some.injEq, Prod.mk.injEq] at h
                rw [← h.2]; omega
              · exact absurd h (by simp)
            · exact absurd h (by simp)
          · exact absurd h (by simp)
        · exact absurd h (by simp)
      · exact absurd h (by simp)
    · intro depth bs es rest h
      rw [parseElements] at h
      split at h
      · rename_i v rest1 hv
        have hs1 := ihv _ _ _ _ hv
        split at h
        · rename_i rest2 hs2
          have hs3 := skipSpace_eq_cons_length hs2
          obtain ⟨r, hr, e⟩ := Option.map_eq_some'.mp h
          have := ihe _ _ _ _ (show parseElements fuel depth rest2 = some (r.1, r.2) from hr)
          simp only [Prod.mk.injEq] at e
          rw [← e.2]; omega
        · rename_i rest2 hs2
          have hs3 := skipSpace_eq_cons_length hs2
          simp only [Option.some.injEq, Prod.mk.injEq] at h
          rw [← h.2]; omega
        · exact absurd h (by simp)
      · exact absurd h (by simp)
/-- One more unit of fuel changes nothing once the fuel exceeds twice the length of the
input. -/
theorem parse_fuel_succ (fuel : Nat) :
    (∀ (depth : Nat) (bs : Bytes), 2 * bs.length < fuel →
      parseValue (fuel + 1) depth bs = parseValue fuel depth bs) ∧
    (∀ (depth : Nat) (bs : Bytes), 2 * bs.length < fuel →
      parseMembers (fuel + 1) depth bs = parseMembers fuel depth bs) ∧
    (∀ (depth : Nat) (bs : Bytes), 2 * bs.length + 1 < fuel →
      parseElements (fuel + 1) depth bs = parseElements fuel depth bs) := by
  induction fuel with
  | zero =>
    refine ⟨?_, ?_, ?_⟩ <;> intro depth bs h <;> exact absurd h (Nat.not_lt_zero _)
  | succ fuel ih =>
    obtain ⟨ihv, ihm, ihe⟩ := ih
    refine ⟨?_, ?_, ?_⟩
    · intro depth bs hlen
      conv_lhs => rw [parseValue]
      conv_rhs => rw [parseValue]
      cases hs : skipSpace bs with
      | nil => rfl
      | cons c rest1 =>
        have hs1 := skipSpace_eq_cons_length hs
        simp only []
        rw [ihm (depth + 1) rest1 (by omega), ihe (depth + 1) rest1 (by omega)]
    · intro depth bs hlen
      conv_lhs => rw [parseMembers]
      conv_rhs => rw [parseMembers]
      split
      · rename_i rest0 hs
        have hs1 := skipSpace_eq_cons_length hs
        split
        · rename_i lit rest1 hs2
          have hs3 := scanString_length hs2
          split
          · rename_i key rest2 hu hs4
            have hs5 := skipSpace_eq_cons_length hs4
            rw [ihv depth rest2 (by omega)]
            split
            · rename_i v rest3 hv
              have hs6 := (parse_length fuel).1 _ _ _ _ hv
              split
              · rename_i rest4 hs7
                have hs8 := skipSpace_eq_cons_length hs7
                rw [ihm depth rest4 (by omega)]
              · rfl
              · rfl
            · rfl
          · rfl
        · rfl
      · rfl
    · intro depth bs hlen
      conv_lhs => rw [parseElements]
      conv_rhs => rw [parseElements]
      rw [ihv depth bs (by omega)]
      split
      · rename_i v rest1 hv
        have hs1 := (parse_length fuel).1 _ _ _ _ hv
        split
        · rename_i rest2 hs2
          have hs3 := skipSpace_eq_cons_length hs2
          rw [ihe depth rest2 (by omega)]
        · rfl
        · rfl
      · rfl

/-- The fuel `parseJSON` gives is enough: no fuel above it changes the result of the
parser. -/
theorem parseValue_fuel_enough (depth : Nat) (bs : Bytes) (extra : Nat) :
    parseValue (2 * bs.length + 1 + extra) depth bs =
      parseValue (2 * bs.length + 1) depth bs := by
  induction extra with
  | zero => rfl
  | succ n ih =>
    rw [← ih]
    exact (parse_fuel_succ (2 * bs.length + 1 + n)).1 depth bs (by omega)

/-! ## The world state -/

theorem lookupKey_eq_none_iff (key : Bytes) (st : List (Bytes × Bytes)) :
    lookupKey key st = none ↔ ∀ kv ∈ st, kv.1 ≠ key := by
  induction st with
  | nil => simp [lookupKey]
  | cons kv rest ih =>
    by_cases h : kv.1 = key
    · simp [lookupKey, h]
    · simp [lookupKey, h, ih]

theorem eraseKey_of_absent {key : Bytes} {st : List (Bytes × Bytes)}
    (h : lookupKey key st = none) : eraseKey key st = st := by
  rw [lookupKey_eq_none_iff] at h
  simpa [eraseKey, List.filter_eq_self] using h

theorem lookupKey_eraseKey_self (key : Bytes) (st : List (Bytes × Bytes)) :
    lookupKey key (eraseKey key st) = none := by
  rw [lookupKey_eq_none_iff]
  intro kv hkv
  simpa [eraseKey] using (List.mem_filter.mp hkv).2

theorem eraseKey_cons (key : Bytes) (kv : Bytes × Bytes) (rest : List (Bytes × Bytes)) :
    eraseKey key (kv :: rest) =
      if kv.1 = key then eraseKey key rest else kv :: eraseKey key rest := by
  by_cases h : kv.1 = key <;> simp [eraseKey, List.filter_cons, h]

theorem lookupKey_cons (key : Bytes) (kv : Bytes × Bytes) (rest : List (Bytes × Bytes)) :
    lookupKey key (kv :: rest) = if kv.1 = key then some kv.2 else lookupKey key rest := rfl

theorem insertSorted_cons (key value : Bytes) (kv : Bytes × Bytes)
    (rest : List (Bytes × Bytes)) :
    insertSorted key value (kv :: rest) =
      if keyLt key kv.1 then (key, value) :: kv :: rest
      else kv :: insertSorted key value rest := rfl

theorem lookupKey_eraseKey_other {key key2 : Bytes} (h : key2 ≠ key)
    (st : List (Bytes × Bytes)) : lookupKey key2 (eraseKey key st) = lookupKey key2 st := by
  induction st with
  | nil => rfl
  | cons kv rest ih =>
    rw [eraseKey_cons, lookupKey_cons]
    by_cases h1 : kv.1 = key
    · have h2 : kv.1 ≠ key2 := by rw [h1]; exact fun e => h e.symm
      rw [if_pos h1, if_neg h2, ih]
    · rw [if_neg h1, lookupKey_cons, ih]

theorem lookupKey_insertSorted_self {key : Bytes} (value : Bytes) {st : List (Bytes × Bytes)}
    (h : lookupKey key st = none) : lookupKey key (insertSorted key value st) = some value := by
  induction st with
  | nil => simp [insertSorted, lookupKey]
  | cons kv rest ih =>
    have h1 : kv.1 ≠ key := by
      intro e; simp [lookupKey, e] at h
    have h2 : lookupKey key rest = none := by simpa [lookupKey, h1] using h
    by_cases hlt : keyLt key kv.1 = true
    · simp [insertSorted, hlt, lookupKey]
    · simp [insertSorted, hlt, lookupKey, h1, ih h2]

theorem lookupKey_insertSorted_other {key key2 : Bytes} (h : key2 ≠ key) (value : Bytes)
    (st : List (Bytes × Bytes)) :
    lookupKey key2 (insertSorted key value st) = lookupKey key2 st := by
  induction st with
  | nil => simp [insertSorted, lookupKey, h.symm]
  | cons kv rest ih =>
    rw [insertSorted_cons]
    by_cases hlt : keyLt key kv.1 = true
    · rw [if_pos hlt, lookupKey_cons, if_neg (show ¬ (key, value).1 = key2 from fun e => h e.symm)]
    · rw [if_neg hlt, lookupKey_cons, lookupKey_cons, ih]

theorem lookupKey_putKey_self (key value : Bytes) (st : List (Bytes × Bytes)) :
    lookupKey key (putKey key value st) = some value :=
  lookupKey_insertSorted_self value (lookupKey_eraseKey_self key st)

theorem lookupKey_putKey_other {key key2 : Bytes} (h : key2 ≠ key) (value : Bytes)
    (st : List (Bytes × Bytes)) : lookupKey key2 (putKey key value st) = lookupKey key2 st := by
  rw [putKey, lookupKey_insertSorted_other h, lookupKey_eraseKey_other h]

theorem GetState_ok_iff (s : Stub) (key : Bytes) (r : Option Bytes) :
    (s.GetState key).1 = .ok r ↔ s.getErr key = none ∧ lookupKey key s.state = r := by
  unfold Stub.GetState
  cases h : s.getErr key <;> simp

theorem GetState_snd (s : Stub) (key : Bytes) : (s.GetState key).2 = s := by
  unfold Stub.GetState
  cases h : s.getErr key <;> rfl

theorem PhotoExists_snd (s : Stub) (key : Bytes) : (PhotoExists s key).2 = s := by
  unfold PhotoExists Stub.GetState
  cases h : s.getErr key <;> rfl

theorem PhotoExists_of_GetState {s : Stub} {key : Bytes} {r : Option Bytes}
    (h : (s.GetState key).1 = .ok r) : PhotoExists s key = (.ok r.isSome, s) := by
  obtain ⟨h1, h2⟩ := (GetState_ok_iff s key r).mp h
  simp [PhotoExists, Stub.GetState, h1, h2]
/-! ## The contract: create, query, delete, exists -/

theorem PutState_ok_iff (s : Stub) (key value : Bytes) :
    (s.PutState key value).1 = .ok () ↔ s.putErr key value = none := by
  unfold Stub.PutState
  cases h : s.putErr key value <;> simp

theorem DelState_ok_iff (s : Stub) (key : Bytes) :
    (s.DelState key).1 = .ok () ↔ s.delErr key = none := by
  unfold Stub.DelState
  cases h : s.delErr key <;> simp

/-- `CreatePhoto` on a store where the id is absent and the two store calls succeed. -/
theorem CreatePhoto_of_absent {s : Stub} {photoID : Bytes} (userName photoHash : Bytes)
    (hget : (s.GetState photoID).1 = .ok none)
    (hput : (s.PutState photoID (encodeStruct ⟨photoID, userName, photoHash⟩)).1 = .ok ()) :
    CreatePhoto s photoID userName photoHash = (.ok (),
      { s with state := putKey photoID (encodeStruct ⟨photoID, userName, photoHash⟩) s.state }) := by
  rw [PutState_ok_iff] at hput
  simp [CreatePhoto, PhotoExists_of_GetState hget, Marshal, Stub.PutState, hput]

/-- `CreatePhoto` succeeds only if the id was absent and both store calls succeeded. -/
theorem CreatePhoto_ok_inv {s : Stub} {photoID userName photoHash : Bytes}
    (h : (CreatePhoto s photoID userName photoHash).1 = .ok ()) :
    (s.GetState photoID).1 = .ok none ∧
      (s.PutState photoID (encodeStruct ⟨photoID, userName, photoHash⟩)).1 = .ok () := by
  rw [GetState_ok_iff, PutState_ok_iff]
  unfold CreatePhoto PhotoExists Stub.GetState at h
  cases hg : s.getErr photoID with
  | some e => simp [hg] at h
  | none =>
    cases hl : lookupKey photoID s.state with
    | some v => simp [hg, hl] at h
    | none =>
      cases hp : s.putErr photoID (encodeStruct ⟨photoID, userName, photoHash⟩) with
      | some e => simp [hg, hl, Marshal, Stub.PutState, hp] at h
      | none => exact ⟨⟨rfl, rfl⟩, rfl⟩

/-- C1: for every (id, owner, contentHash) of well-formed UTF-8 text and every store in which
the id is absent, the store's get and put succeeding: `CreatePhoto(id, owner, contentHash)`
succeeds, and `QueryPhoto(id)` on the resulting store succeeds and returns the record whose
three fields are the inputs. -/
theorem C1_create_then_query (s : Stub) (photoID userName photoHash : Bytes)
    (hvalid : Photo.Valid ⟨photoID, userName, photoHash⟩)
    (habsent : (s.GetState photoID).1 = .ok none)
    (hput : (s.PutState photoID (encodeStruct ⟨photoID, userName, photoHash⟩)).1 = .ok ()) :
    (CreatePhoto s photoID userName photoHash).1 = .ok () ∧
    (QueryPhoto (CreatePhoto s photoID userName photoHash).2 photoID).1 =
      .ok ⟨photoID, userName, photoHash⟩ := by
  rw [CreatePhoto_of_absent userName photoHash habsent hput]
  refine ⟨rfl, ?_⟩
  obtain ⟨hg, _⟩ := (GetState_ok_iff s photoID none).mp habsent
  simp only [QueryPhoto, Stub.GetState, hg, lookupKey_putKey_self, Unmarshal_encodeStruct,
    Photo.coerce_of_valid hvalid]

/-- C1 at a store that holds other keys, with an owner of non-ASCII text and a quote and a
hash that is a backslash. -/
theorem C1_create_then_query_witness :
    Photo.Valid ⟨[0x37], [0xC3, 0xA9, 0x22], [0x5C]⟩ ∧
    (sampleStub.GetState [0x37]).1 = .ok none ∧
    (sampleStub.PutState [0x37] (encodeStruct ⟨[0x37], [0xC3, 0xA9, 0x22], [0x5C]⟩)).1 = .ok () ∧
    (CreatePhoto sampleStub [0x37] [0xC3, 0xA9, 0x22] [0x5C]).1 = .ok () ∧
    (QueryPhoto (CreatePhoto sampleStub [0x37] [0xC3, 0xA9, 0x22] [0x5C]).2 [0x37]).1 =
      .ok ⟨[0x37], [0xC3, 0xA9, 0x22], [0x5C]⟩ :=
  ⟨by decide, by decide, by decide,
    C1_create_then_query sampleStub [0x37] [0xC3, 0xA9, 0x22] [0x5C]
      (by decide) (by decide) (by decide)⟩

/-- C2: when `CreatePhoto` has succeeded for an id, a second `CreatePhoto` with the same id,
whatever the owner and hash, fails with the already-exists error and leaves the store as the
first call left it, the bytes under the id being those the first call wrote.  More generally,
on any store where the id is present, with whatever bytes, `CreatePhoto` fails and leaves the
store as it is, and the failure is the already-exists error when the store read succeeds. -/
theorem C2_create_existing_fails (photoID userName2 photoHash2 : Bytes) :
    (∀ (s : Stub) (userName photoHash : Bytes),
      (CreatePhoto s photoID userName photoHash).1 = .ok () →
      CreatePhoto (CreatePhoto s photoID userName photoHash).2 photoID userName2 photoHash2 =
        (.error (.alreadyExists photoID), (CreatePhoto s photoID userName photoHash).2) ∧
      lookupKey photoID (CreatePhoto s photoID userName photoHash).2.state =
        some (encodeStruct ⟨photoID, userName, photoHash⟩)) ∧
    (∀ (s : Stub) (value : Bytes), lookupKey photoID s.state = some value →
      (∃ e, (CreatePhoto s photoID userName2 photoHash2).1 = .error e) ∧
      (CreatePhoto s photoID userName2 photoHash2).2 = s ∧
      ((s.GetState photoID).1 = .ok (some value) →
        (CreatePhoto s photoID userName2 photoHash2).1 = .error (.alreadyExists photoID))) := by
  constructor
  · intro s userName photoHash h
    obtain ⟨hget, hput⟩ := CreatePhoto_ok_inv h
    rw [CreatePhoto_of_absent userName photoHash hget hput]
    obtain ⟨hg, _⟩ := (GetState_ok_iff s photoID none).mp hget
    refine ⟨?_, lookupKey_putKey_self _ _ _⟩
    simp [CreatePhoto, PhotoExists, Stub.GetState, hg, lookupKey_putKey_self]
  · intro s value hv
    unfold CreatePhoto PhotoExists Stub.GetState
    cases hg : s.getErr photoID with
    | some e => simp
    | none => simp [hv]

/-- C2 at the sample store, where key `9` holds bytes that are not JSON, and at two calls on
the empty store. -/
theorem C2_create_existing_fails_witness :
    lookupKey (ascii "9") sampleStub.state = some (ascii "exists") ∧
    (CreatePhoto sampleStub (ascii "9") (ascii "Alice") (ascii "h")).2 = sampleStub ∧
    (CreatePhoto emptyStub (ascii "9") (ascii "Bob") (ascii "g")).1 = .ok () ∧
    CreatePhoto (CreatePhoto emptyStub (ascii "9") (ascii "Bob") (ascii "g")).2
        (ascii "9") (ascii "Alice") (ascii "h") =
      (.error (.alreadyExists (ascii "9")),
        (CreatePhoto emptyStub (ascii "9") (ascii "Bob") (ascii "g")).2) :=
  ⟨by decide,
    (((C2_create_existing_fails (ascii "9") (ascii "Alice") (ascii "h")).2 sampleStub
      (ascii "exists") (by decide)).2).1,
    by decide,
    ((C2_create_existing_fails (ascii "9") (ascii "Alice") (ascii "h")).1 emptyStub
      (ascii "Bob") (ascii "g") (by decide)).1⟩

/-- C3: for every id for which the store's get returns no bytes: `QueryPhoto(id)` fails with
the does-not-exist error, `DeletePhoto(id)` fails with the does-not-exist error and leaves
the store unchanged, and `PhotoExists(id)` succeeds with false. -/
theorem C3_absent_not_found (s : Stub) (photoID : Bytes)
    (habsent : (s.GetState photoID).1 = .ok none) :
    QueryPhoto s photoID = (.error (.notFound photoID), s) ∧
    DeletePhoto s photoID = (.error (.notFound photoID), s) ∧
    PhotoExists s photoID = (.ok false, s) := by
  obtain ⟨hg, hl⟩ := (GetState_ok_iff s photoID none).mp habsent
  refine ⟨?_, ?_, ?_⟩
  · simp [QueryPhoto, Stub.GetState, hg, hl]
  · simp [DeletePhoto, PhotoExists, Stub.GetState, hg, hl]
  · simp [PhotoExists, Stub.GetState, hg, hl]

/-- C3 at the sample store and the absent key `2`. -/
theorem C3_absent_not_found_witness :
    (sampleStub.GetState (ascii "2")).1 = .ok none ∧
    QueryPhoto sampleStub (ascii "2") = (.error (.notFound (ascii "2")), sampleStub) ∧
    DeletePhoto sampleStub (ascii "2") = (.error (.notFound (ascii "2")), sampleStub) ∧
    PhotoExists sampleStub (ascii "2") = (.ok false, sampleStub) :=
  ⟨by decide, C3_absent_not_found sampleStub (ascii "2") (by decide)⟩

/-- C4: for every id for which the store's get returns bytes, the store's delete succeeding:
`PhotoExists(id)` returns true and `DeletePhoto(id)` succeeds; on the resulting store
`PhotoExists(id)` returns false and a second `DeletePhoto(id)` fails with the does-not-exist
error. -/
theorem C4_present_then_deleted (s : Stub) (photoID value : Bytes)
    (hpresent : (s.GetState photoID).1 = .ok (some value))
    (hdel : (s.DelState photoID).1 = .ok ()) :
    PhotoExists s photoID = (.ok true, s) ∧
    (DeletePhoto s photoID).1 = .ok () ∧
    PhotoExists (DeletePhoto s photoID).2 photoID = (.ok false, (DeletePhoto s photoID).2) ∧
    DeletePhoto (DeletePhoto s photoID).2 photoID =
      (.error (.notFound photoID), (DeletePhoto s photoID).2) := by
  obtain ⟨hg, hl⟩ := (GetState_ok_iff s photoID _).mp hpresent
  rw [DelState_ok_iff] at hdel
  have hd : DeletePhoto s photoID = (.ok (), { s with state := eraseKey photoID s.state }) := by
    simp [DeletePhoto, PhotoExists, Stub.GetState, hg, hl, Stub.DelState, hdel]
  rw [hd]
  refine ⟨?_, rfl, ?_, ?_⟩
  · simp [PhotoExists, Stub.GetState, hg, hl]
  · simp [PhotoExists, Stub.GetState, hg, lookupKey_eraseKey_self]
  · simp [DeletePhoto, PhotoExists, Stub.GetState, hg, lookupKey_eraseKey_self]

/-- C4 at the sample store and key `9`, whose bytes are not JSON. -/
theorem C4_present_then_deleted_witness :
    (sampleStub.GetState (ascii "9")).1 = .ok (some (ascii "exists")) ∧
    (sampleStub.DelState (ascii "9")).1 = .ok () ∧
    PhotoExists sampleStub (ascii "9") = (.ok true, sampleStub) ∧
    (DeletePhoto sampleStub (ascii "9")).1 = .ok () ∧
    PhotoExists (DeletePhoto sampleStub (ascii "9")).2 (ascii "9") =
      (.ok false, (DeletePhoto sampleStub (ascii "9")).2) ∧
    DeletePhoto (DeletePhoto sampleStub (ascii "9")).2 (ascii "9") =
      (.error (.notFound (ascii "9")), (DeletePhoto sampleStub (ascii "9")).2) :=
  ⟨by decide, by decide, C4_present_then_deleted sampleStub (ascii "9") (ascii "exists")
    (by decide) (by decide)⟩
/-! ## The contract: seeding and enumeration -/

theorem insertSorted_perm (key value : Bytes) (st : List (Bytes × Bytes)) :
    (insertSorted key value st).Perm ((key, value) :: st) := by
  induction st with
  | nil => exact List.Perm.refl _
  | cons kv rest ih =>
    rw [insertSorted_cons]
    by_cases hlt : keyLt key kv.1 = true
    · rw [if_pos hlt]
    · rw [if_neg hlt]
      exact (List.Perm.cons kv ih).trans (List.Perm.swap _ _ _)

theorem length_eraseKey_of_mem {key : Bytes} {st : List (Bytes × Bytes)}
    (hnd : (st.map Prod.fst).Nodup) (hmem : key ∈ st.map Prod.fst) :
    (eraseKey key st).length + 1 = st.length := by
  induction st with
  | nil => simp at hmem
  | cons kv rest ih =>
    rw [List.map_cons, List.nodup_cons] at hnd
    rw [eraseKey_cons]
    by_cases h : kv.1 = key
    · rw [if_pos h]
      have : lookupKey key rest = none := by
        rw [lookupKey_eq_none_iff]
        intro kv2 hkv2 e
        exact hnd.1 (by rw [h, ← e]; exact List.mem_map_of_mem _ hkv2)
      rw [eraseKey_of_absent this, List.length_cons]
    · rw [if_neg h]
      have hm : key ∈ rest.map Prod.fst := by
        rw [List.map_cons, List.mem_cons] at hmem
        rcases hmem with e | hm
        · exact absurd e.symm h
        · exact hm
      simp only [List.length_cons]
      rw [ih hnd.2 hm]

theorem WrittenByContract_putKey {key : Bytes} (p : Photo) {st : List (Bytes × Bytes)}
    (h : WrittenByContract st) (habsent : lookupKey key st = none) :
    WrittenByContract (putKey key (encodeStruct p) st) ∧
      (putKey key (encodeStruct p) st).length = st.length + 1 := by
  rw [putKey, eraseKey_of_absent habsent]
  have hp := insertSorted_perm key (encodeStruct p) st
  refine ⟨⟨?_, ?_⟩, ?_⟩
  · rw [(hp.map Prod.fst).nodup_iff, List.map_cons, List.nodup_cons]
    refine ⟨?_, h.1⟩
    intro hm
    obtain ⟨kv, hkv, e⟩ := List.mem_map.mp hm
    exact (lookupKey_eq_none_iff key st).mp habsent kv hkv e
  · intro kv hkv
    rcases List.mem_cons.mp (hp.mem_iff.mp hkv) with e | hm
    · exact ⟨p, by rw [e]⟩
    · exact h.2 kv hm
  · rw [hp.length_eq, List.length_cons]

theorem WrittenByContract_eraseKey {key : Bytes} {st : List (Bytes × Bytes)}
    (h : WrittenByContract st) : WrittenByContract (eraseKey key st) := by
  refine ⟨?_, ?_⟩
  · exact h.1.sublist ((List.filter_sublist st).map Prod.fst)
  · intro kv hkv
    exact h.2 kv (List.mem_filter.mp hkv).1

/-- `DeletePhoto` succeeds only if the id was present and both store calls succeeded. -/
theorem DeletePhoto_ok_inv {s : Stub} {photoID : Bytes}
    (h : (DeletePhoto s photoID).1 = .ok ()) :
    (∃ value, lookupKey photoID s.state = some value) ∧
      DeletePhoto s photoID = (.ok (), { s with state := eraseKey photoID s.state }) := by
  unfold DeletePhoto PhotoExists Stub.GetState at h ⊢
  cases hg : s.getErr photoID with
  | some e => simp [hg] at h
  | none =>
    cases hl : lookupKey photoID s.state with
    | none => simp [hg, hl] at h
    | some v =>
      cases hd : s.delErr photoID with
      | some e => simp [hg, hl, Stub.DelState, hd] at h
      | none => simp [Stub.DelState, hd]

theorem lookupKey_isSome_mem {key : Bytes} {st : List (Bytes × Bytes)} {value : Bytes}
    (h : lookupKey key st = some value) : key ∈ st.map Prod.fst := by
  by_contra hn
  have : lookupKey key st = none := by
    rw [lookupKey_eq_none_iff]
    intro kv hkv e
    exact hn (by rw [← e]; exact List.mem_map_of_mem _ hkv)
  rw [this] at h
  exact Option.noConfusion h

/-- Along a sequence of successful calls the store stays as the contract writes it, the
failure behaviour of the store stays the same, and the number of keys moves with the calls. -/
theorem runCalls_invariant (calls : List Call) :
    ∀ (s s2 : Stub), runCalls s calls = some s2 → WrittenByContract s.state →
      WrittenByContract s2.state ∧ s2.rangeErr = s.rangeErr ∧ s2.nextErr = s.nextErr ∧
        s2.state.length + countDeletes calls = s.state.length + countCreates calls := by
  induction calls with
  | nil =>
    intro s s2 h hw
    simp only [runCalls, Option.some.injEq] at h
    subst h
    exact ⟨hw, rfl, rfl, rfl⟩
  | cons call rest ih =>
    intro s s2 h hw
    cases call with
    | create photoID userName photoHash =>
      rw [runCalls] at h
      cases hc : (CreatePhoto s photoID userName photoHash) with
      | mk r s1 =>
        cases r with
        | error e => simp [hc] at h
        | ok u =>
          have hok : (CreatePhoto s photoID userName photoHash).1 = .ok () := by rw [hc]
          obtain ⟨hget, hput⟩ := CreatePhoto_ok_inv hok
          have hs1 := CreatePhoto_of_absent userName photoHash hget hput
          rw [hc] at hs1
          have hs1b := (Prod.mk.inj hs1).2
          obtain ⟨_, hl⟩ := (GetState_ok_iff s photoID none).mp hget
          obtain ⟨hw1, hlen⟩ := WrittenByContract_putKey ⟨photoID, userName, photoHash⟩ hw hl
          simp only [hc] at h
          obtain ⟨a, b, c, d⟩ := ih s1 s2 h (by rw [hs1b]; exact hw1)
          refine ⟨a, ?_, ?_, ?_⟩
          · rw [b, hs1b]
          · rw [c, hs1b]
          · rw [hs1b] at d
            simp only [countDeletes, countCreates] at d ⊢
            rw [hlen] at d
            omega
    | delete photoID =>
      rw [runCalls] at h
      cases hc : (DeletePhoto s photoID) with
      | mk r s1 =>
        cases r with
        | error e => simp [hc] at h
        | ok u =>
          have hok : (DeletePhoto s photoID).1 = .ok () := by rw [hc]
          obtain ⟨⟨value, hl⟩, hs1⟩ := DeletePhoto_ok_inv hok
          rw [hc] at hs1
          have hs1b := (Prod.mk.inj hs1).2
          have hlen := length_eraseKey_of_mem hw.1 (lookupKey_isSome_mem hl)
          simp only [hc] at h
          obtain ⟨a, b, c, d⟩ := ih s1 s2 h (by rw [hs1b]; exact WrittenByContract_eraseKey hw)
          refine ⟨a, ?_, ?_, ?_⟩
          · rw [b, hs1b]
          · rw [c, hs1b]
          · rw [hs1b] at d
            simp only [countDeletes, countCreates] at d ⊢
            omega
theorem filter_inRange_unbounded (st : List (Bytes × Bytes)) :
    st.filter (fun kv => inRange [] [] kv.1) = st := by
  simp [inRange]

/-- The loop of `GetAllPhoto` when no `Next` fails and every value decodes: the decoded
records are appended in scan order. -/
theorem GetAllPhoto_loop_ok (s : Stub) (hnext : ∀ i, s.nextErr i = none) :
    ∀ (entries : List (Bytes × Bytes)) (photos : List Photo) (position : Nat)
      (assets : List Photo),
      List.Forall₂ (fun kv p => Unmarshal kv.2 = .ok p) entries photos →
      GetAllPhoto.loop s entries position assets = .ok (assets ++ photos) := by
  intro entries
  induction entries with
  | nil =>
    intro photos position assets h
    cases h
    simp [GetAllPhoto.loop]
  | cons kv rest ih =>
    intro photos position assets h
    cases h with
    | cons h1 h2 =>
      rw [GetAllPhoto.loop, hnext]
      simp only [h1]
      rw [ih _ _ _ h2, List.append_assoc]
      rfl

/-- The loop of `GetAllPhoto` when some value of the scan does not decode. -/
theorem GetAllPhoto_loop_error (s : Stub) :
    ∀ (entries : List (Bytes × Bytes)) (position : Nat) (assets : List Photo),
      (∃ kv ∈ entries, ∀ p, Unmarshal kv.2 ≠ .ok p) →
      ∃ e, GetAllPhoto.loop s entries position assets = .error e := by
  intro entries
  induction entries with
  | nil =>
    intro position assets h
    obtain ⟨kv, hkv, _⟩ := h
    simp at hkv
  | cons kv rest ih =>
    intro position assets h
    rw [GetAllPhoto.loop]
    cases hn : s.nextErr position with
    | some e => exact ⟨_, rfl⟩
    | none =>
      cases hu : Unmarshal kv.2 with
      | error e => exact ⟨_, rfl⟩
      | ok asset =>
        obtain ⟨kv2, hkv2, hbad⟩ := h
        rcases List.mem_cons.mp hkv2 with e | hm
        · subst e
          exact absurd hu (hbad asset)
        · exact ih _ _ ⟨kv2, hm, hbad⟩

/-- The loop of `GetAllPhoto` looks at the stub only for the failures of `Next`. -/
theorem GetAllPhoto_loop_congr {s s2 : Stub} (h : s2.nextErr = s.nextErr) :
    ∀ (entries : List (Bytes × Bytes)) (position : Nat) (assets : List Photo),
      GetAllPhoto.loop s2 entries position assets = GetAllPhoto.loop s entries position assets := by
  intro entries
  induction entries with
  | nil => intro position assets; rfl
  | cons kv rest ih =>
    intro position assets
    rw [GetAllPhoto.loop, GetAllPhoto.loop, h]
    cases s.nextErr position with
    | some e => rfl
    | none =>
      cases Unmarshal kv.2 with
      | error e => rfl
      | ok asset => exact ih _ _

theorem GetAllPhoto_of_scan {s : Stub} (hrange : s.rangeErr = none) :
    (GetAllPhoto s).1 = GetAllPhoto.loop s s.state 0 [] := by
  simp only [GetAllPhoto, Stub.GetStateByRange, hrange, filter_inRange_unbounded]
  apply GetAllPhoto_loop_congr
  rfl

theorem decodable_of_written {st : List (Bytes × Bytes)}
    (h : ∀ kv ∈ st, ∃ p : Photo, kv.2 = encodeStruct p) :
    ∃ photos, List.Forall₂ (fun kv p => Unmarshal kv.2 = .ok p) st photos := by
  induction st with
  | nil => exact ⟨[], List.Forall₂.nil⟩
  | cons kv rest ih =>
    obtain ⟨photos, hp⟩ := ih (fun kv2 hkv2 => h kv2 (List.mem_cons_of_mem _ hkv2))
    obtain ⟨p, e⟩ := h kv (List.mem_cons_self _ _)
    exact ⟨p.coerce :: photos, List.Forall₂.cons (by rw [e, Unmarshal_encodeStruct]) hp⟩

/-- C5: `InitLedger` on the empty store succeeds, and `GetAllPhoto` on the resulting store
returns exactly the three seed records: ids `1`, `2`, `3`, owners `Alice`, `Bob`, `Bob`,
hashes `hashvalue1`, `hashvalue2`, `hashvalue2` (the store's puts and its scan
succeeding). -/
theorem C5_init_then_get_all (s : Stub) (hempty : s.state = [])
    (hput : ∀ key value, s.putErr key value = none)
    (hrange : s.rangeErr = none) (hnext : ∀ i, s.nextErr i = none) :
    (InitLedger s).1 = .ok () ∧
    (GetAllPhoto (InitLedger s).2).1 =
      .ok [⟨ascii "1", ascii "Alice", ascii "hashvalue1"⟩,
        ⟨ascii "2", ascii "Bob", ascii "hashvalue2"⟩,
        ⟨ascii "3", ascii "Bob", ascii "hashvalue2"⟩] := by
  have hinit : InitLedger s = (.ok (), { s with state :=
      [(ascii "1", encodeStruct ⟨ascii "1", ascii "Alice", ascii "hashvalue1"⟩),
       (ascii "2", encodeStruct ⟨ascii "2", ascii "Bob", ascii "hashvalue2"⟩),
       (ascii "3", encodeStruct ⟨ascii "3", ascii "Bob", ascii "hashvalue2"⟩)] }) := by
    simp only [InitLedger, seedPhotos, InitLedger.loop, Marshal, Stub.PutState, hput, hempty]
    have e : putKey (ascii "3") (encodeStruct ⟨ascii "3", ascii "Bob", ascii "hashvalue2"⟩)
        (putKey (ascii "2") (encodeStruct ⟨ascii "2", ascii "Bob", ascii "hashvalue2"⟩)
          (putKey (ascii "1") (encodeStruct ⟨ascii "1", ascii "Alice", ascii "hashvalue1"⟩) []))
        = [(ascii "1", encodeStruct ⟨ascii "1", ascii "Alice", ascii "hashvalue1"⟩),
       (ascii "2", encodeStruct ⟨ascii "2", ascii "Bob", ascii "hashvalue2"⟩),
       (ascii "3", encodeStruct ⟨ascii "3", ascii "Bob", ascii "hashvalue2"⟩)] := by decide
    rw [e]
  rw [hinit]
  refine ⟨rfl, ?_⟩
  simp only []
  have hr : ∀ st, ({ s with state := st } : Stub).rangeErr = none := fun _ => hrange
  rw [GetAllPhoto_of_scan (hr _)]
  have h := GetAllPhoto_loop_ok { s with state :=
      [(ascii "1", encodeStruct ⟨ascii "1", ascii "Alice", ascii "hashvalue1"⟩),
       (ascii "2", encodeStruct ⟨ascii "2", ascii "Bob", ascii "hashvalue2"⟩),
       (ascii "3", encodeStruct ⟨ascii "3", ascii "Bob", ascii "hashvalue2"⟩)] } hnext
    [(ascii "1", encodeStruct ⟨ascii "1", ascii "Alice", ascii "hashvalue1"⟩),
       (ascii "2", encodeStruct ⟨ascii "2", ascii "Bob", ascii "hashvalue2"⟩),
       (ascii "3", encodeStruct ⟨ascii "3", ascii "Bob", ascii "hashvalue2"⟩)]
    [⟨ascii "1", ascii "Alice", ascii "hashvalue1"⟩,
        ⟨ascii "2", ascii "Bob", ascii "hashvalue2"⟩,
        ⟨ascii "3", ascii "Bob", ascii "hashvalue2"⟩] 0 []
    (List.Forall₂.cons (by decide) (List.Forall₂.cons (by decide)
      (List.Forall₂.cons (by decide) List.Forall₂.nil)))
  exact h

/-- C5 at the empty store in which no call fails. -/
theorem C5_init_then_get_all_witness :
    emptyStub.state = [] ∧
    (InitLedger emptyStub).1 = .ok () ∧
    (GetAllPhoto (InitLedger emptyStub).2).1 =
      .ok [⟨ascii "1", ascii "Alice", ascii "hashvalue1"⟩,
        ⟨ascii "2", ascii "Bob", ascii "hashvalue2"⟩,
        ⟨ascii "3", ascii "Bob", ascii "hashvalue2"⟩] :=
  ⟨rfl, C5_init_then_get_all emptyStub rfl (fun _ _ => rfl) rfl (fun _ => rfl)⟩
/-! ## The codec -/

/-- C6, as stated, fails: the record whose id is the single byte `FF` (not UTF-8) is
marshalled with the id escaped as U+FFFD, so unmarshalling returns the id `EF BF BD`, not
`FF`; and marshalling that result again does not give the bytes back.  The bytes of the empty
object decode, yet are not restored either. -/
theorem C6_roundtrip_counterexample :
    (Marshal ⟨[0xFF], [], []⟩).bind Unmarshal = .ok ⟨[0xEF, 0xBF, 0xBD], [], []⟩ ∧
    (Marshal ⟨[0xFF], [], []⟩).bind Unmarshal ≠ .ok ⟨[0xFF], [], []⟩ ∧
    ((Marshal ⟨[0xFF], [], []⟩).bind Unmarshal).bind Marshal ≠ Marshal ⟨[0xFF], [], []⟩ ∧
    (Unmarshal (ascii "\x7b\x7d")).bind Marshal ≠ .ok (ascii "\x7b\x7d") := by
  decide

/-- C6, amended: for every record whose three fields are well-formed UTF-8 (quotes,
backslashes, control characters and non-ASCII runes included), unmarshalling what `Marshal`
wrote gives the record back, and marshalling that again gives the same bytes. -/
theorem C6_roundtrip_valid (p : Photo) (hvalid : p.Valid) :
    (Marshal p).bind Unmarshal = .ok p ∧
    ∀ bytes, Marshal p = .ok bytes → (Unmarshal bytes).bind Marshal = .ok bytes := by
  have h : Unmarshal (encodeStruct p) = .ok p := by
    rw [Unmarshal_encodeStruct, Photo.coerce_of_valid hvalid]
  refine ⟨?_, ?_⟩
  · simp only [Marshal, Except.bind, h]
  · intro bytes hb
    simp only [Marshal, Except.ok.injEq] at hb
    subst hb
    simp only [h, Except.bind, Marshal]

/-- C6, amended, at a record with a quote, a backslash, a control character, a two-byte rune,
U+2028, a four-byte rune, `<` and an empty field. -/
theorem C6_roundtrip_valid_witness :
    Photo.Valid ⟨[0x22, 0x5C, 0x01, 0xC3, 0xA9], [0xE2, 0x80, 0xA8, 0xF0, 0x9F, 0x98, 0x80, 0x3C], []⟩ ∧
    (Marshal ⟨[0x22, 0x5C, 0x01, 0xC3, 0xA9], [0xE2, 0x80, 0xA8, 0xF0, 0x9F, 0x98, 0x80, 0x3C], []⟩).bind
      Unmarshal =
      .ok ⟨[0x22, 0x5C, 0x01, 0xC3, 0xA9], [0xE2, 0x80, 0xA8, 0xF0, 0x9F, 0x98, 0x80, 0x3C], []⟩ :=
  ⟨by decide,
    (C6_roundtrip_valid
      ⟨[0x22, 0x5C, 0x01, 0xC3, 0xA9], [0xE2, 0x80, 0xA8, 0xF0, 0x9F, 0x98, 0x80, 0x3C], []⟩
      (by decide)).1⟩

/-- C7: the encoding `CreatePhoto` and `InitLedger` write has three fields in the order of
the Go declaration, `photoID`, `userName`, `photoHash`, which is not the alphabetical order
(`photoHash` sorts before `photoID`). -/
theorem C7_field_order :
    Marshal ⟨ascii "1", ascii "Alice", ascii "hashvalue1"⟩ =
      .ok (ascii
        "\x7b\"photoID\":\"1\",\"userName\":\"Alice\",\"photoHash\":\"hashvalue1\"\x7d") ∧
    lookupKey (ascii "1")
        (CreatePhoto emptyStub (ascii "1") (ascii "Alice") (ascii "hashvalue1")).2.state =
      some (ascii
        "\x7b\"photoID\":\"1\",\"userName\":\"Alice\",\"photoHash\":\"hashvalue1\"\x7d") ∧
    lookupKey (ascii "1") (InitLedger emptyStub).2.state =
      some (ascii
        "\x7b\"photoID\":\"1\",\"userName\":\"Alice\",\"photoHash\":\"hashvalue1\"\x7d") ∧
    keyLt namePhotoHash namePhotoID = true ∧ keyLt namePhotoID nameUserName = true := by
  decide

/-! ## Counting, existence, and failed decoding -/

/-- C8: starting from the empty store, after any sequence of `CreatePhoto` and `DeletePhoto`
calls that all succeed, `GetAllPhoto` succeeds (the scan succeeding) and returns as many
records as there were creations minus deletions. -/
theorem C8_count_created_minus_deleted (s s2 : Stub) (calls : List Call)
    (hempty : s.state = []) (hrun : runCalls s calls = some s2)
    (hrange : s.rangeErr = none) (hnext : ∀ i, s.nextErr i = none) :
    ∃ photos, (GetAllPhoto s2).1 = .ok photos ∧
      photos.length = countCreates calls - countDeletes calls ∧
      countDeletes calls ≤ countCreates calls := by
  have hw : WrittenByContract s.state := by
    rw [hempty]
    exact ⟨List.nodup_nil, fun kv hkv => absurd hkv (List.not_mem_nil kv)⟩
  obtain ⟨hw2, hr2, hn2, hlen⟩ := runCalls_invariant calls s s2 hrun hw
  obtain ⟨photos, hp⟩ := decodable_of_written hw2.2
  refine ⟨photos, ?_, ?_, ?_⟩
  · rw [GetAllPhoto_of_scan (by rw [hr2, hrange]),
      GetAllPhoto_loop_ok s2 (by rw [hn2]; exact hnext) _ _ _ _ hp]
    rfl
  · have := hp.length_eq
    rw [hempty] at hlen
    simp only [List.length_nil] at hlen
    omega
  · rw [hempty] at hlen
    simp only [List.length_nil] at hlen
    omega

/-- C8 at the empty store and the calls create `a`, create `b`, delete `a`, create `c`. -/
theorem C8_count_created_minus_deleted_witness :
    ∃ photos,
      (GetAllPhoto { emptyStub with state :=
        [(ascii "b", encodeStruct ⟨ascii "b", ascii "Bob", []⟩),
         (ascii "c", encodeStruct ⟨ascii "c", [0xFF], ascii "h"⟩)] }).1 = .ok photos ∧
      photos.length = 3 - 1 ∧ 1 ≤ 3 :=
  C8_count_created_minus_deleted emptyStub _
    [.create (ascii "a") (ascii "Alice") (ascii "h"), .create (ascii "b") (ascii "Bob") [],
      .delete (ascii "a"), .create (ascii "c") [0xFF] (ascii "h")]
    rfl rfl rfl (fun _ => rfl)

/-- C9: `PhotoExists` decides by the presence of the key alone: whenever the store's get
returns bytes, whatever they are, it returns true; and when it fails, the store's get has
failed and the failure is that error wrapped as a read failure, never a decoding error. -/
theorem C9_exists_by_presence (s : Stub) (photoID : Bytes) :
    (∀ value, (s.GetState photoID).1 = .ok (some value) →
      PhotoExists s photoID = (.ok true, s)) ∧
    (∀ e, (PhotoExists s photoID).1 = .error e →
      ∃ cause, (s.GetState photoID).1 = .error cause ∧ e = .readFailed cause) := by
  refine ⟨?_, ?_⟩
  · intro value h
    exact PhotoExists_of_GetState h
  · intro e h
    unfold PhotoExists at h
    unfold Stub.GetState at h ⊢
    cases hg : s.getErr photoID with
    | some cause =>
      simp only [hg, Except.error.injEq] at h
      exact ⟨cause, rfl, h.symm⟩
    | none => simp [hg] at h

/-- C9 at the sample store and key `9`, whose bytes are not JSON. -/
theorem C9_exists_by_presence_witness :
    (sampleStub.GetState (ascii "9")).1 = .ok (some (ascii "exists")) ∧
    Unmarshal (ascii "exists") = .error .malformed ∧
    PhotoExists sampleStub (ascii "9") = (.ok true, sampleStub) :=
  ⟨by decide, by decide,
    (C9_exists_by_presence sampleStub (ascii "9")).1 (ascii "exists") (by decide)⟩

/-- C10: whenever a value of the scanned store does not decode, `GetAllPhoto` returns an
error and no list, however many earlier values decoded. -/
theorem C10_get_all_fails_on_bad_entry (s : Stub) (kv : Bytes × Bytes)
    (hmem : kv ∈ s.state) (hbad : ∃ e, Unmarshal kv.2 = .error e) :
    ∃ e, (GetAllPhoto s).1 = .error e := by
  cases hr : s.rangeErr with
  | some cause =>
    exact ⟨.stub cause, by simp [GetAllPhoto, Stub.GetStateByRange, hr]⟩
  | none =>
    rw [GetAllPhoto_of_scan hr]
    apply GetAllPhoto_loop_error
    obtain ⟨e, he⟩ := hbad
    exact ⟨kv, hmem, fun p hp => by rw [he] at hp; exact Except.noConfusion hp⟩

/-- C10 at the sample store: the first value decodes, the second (`exists`) does not. -/
theorem C10_get_all_fails_on_bad_entry_witness :
    (ascii "9", ascii "exists") ∈ sampleStub.state ∧
    Unmarshal (ascii "exists") = .error .malformed ∧
    ∃ e, (GetAllPhoto sampleStub).1 = .error e :=
  ⟨by decide, by decide,
    C10_get_all_fails_on_bad_entry sampleStub (ascii "9", ascii "exists") (by decide)
      ⟨.malformed, by decide⟩⟩
/-! ## The contract: enumeration in scan order, seeding on any store -/

/-- The loop of `GetAllPhoto` when no `Next` of the scan fails and every value decodes, from
any position of the cursor. -/
theorem GetAllPhoto_loop_ok_from (s : Stub) :
    ∀ (entries : List (Bytes × Bytes)) (photos : List Photo) (position : Nat)
      (assets : List Photo),
      (∀ i, i < entries.length → s.nextErr (position + i) = none) →
      List.Forall₂ (fun kv p => Unmarshal kv.2 = .ok p) entries photos →
      GetAllPhoto.loop s entries position assets = .ok (assets ++ photos) := by
  intro entries
  induction entries with
  | nil =>
    intro photos position assets _ h
    cases h
    simp [GetAllPhoto.loop]
  | cons kv rest ih =>
    intro photos position assets hn h
    cases h with
    | cons h1 h2 =>
      have h0 := hn 0 (by simp)
      rw [Nat.add_zero] at h0
      rw [GetAllPhoto.loop, h0]
      simp only [h1]
      rw [ih _ _ _ (fun i hi => by
        have := hn (i + 1) (by simp only [List.length_cons]; omega)
        rw [← this]; congr 1; omega) h2, List.append_assoc]
      rfl

theorem decodes_forall2 {entries : List (Bytes × Bytes)}
    (h : ∀ kv ∈ entries, ∃ p, Unmarshal kv.2 = .ok p) :
    ∃ photos, List.Forall₂ (fun kv p => Unmarshal kv.2 = .ok p) entries photos := by
  induction entries with
  | nil => exact ⟨[], List.Forall₂.nil⟩
  | cons kv rest ih =>
    obtain ⟨photos, hp⟩ := ih (fun kv2 hkv2 => h kv2 (List.mem_cons_of_mem _ hkv2))
    obtain ⟨p, e⟩ := h kv (List.mem_cons_self _ _)
    exact ⟨p :: photos, List.Forall₂.cons e hp⟩

theorem decodes_forall2_get {entries : List (Bytes × Bytes)} {photos : List Photo}
    (h : List.Forall₂ (fun kv p => Unmarshal kv.2 = .ok p) entries photos) :
    ∀ (i : Nat) (kv : Bytes × Bytes), entries[i]? = some kv →
      ∃ p, photos[i]? = some p ∧ Unmarshal kv.2 = .ok p := by
  induction h with
  | nil => intro i kv hi; simp at hi
  | cons h1 _ ih =>
    intro i kv hi
    cases i with
    | zero =>
      simp only [List.getElem?_cons_zero, Option.some.injEq] at hi
      subst hi
      exact ⟨_, by simp, h1⟩
    | succ n =>
      simp only [List.getElem?_cons_succ] at hi ⊢
      exact ih n kv hi

/-- C11: when the scan with empty bounds opens, none of its `Next` calls fails and every
scanned value decodes, `GetAllPhoto` returns the decodings in scan order: the scan is the
whole store, the result has the length of the scan, and its i-th element is the decoding of
the i-th scanned value. -/
theorem C11_get_all_in_scan_order (s : Stub) (resultsIterator : Iterator)
    (hopen : (s.GetStateByRange [] []).1 = .ok resultsIterator)
    (hnext : ∀ i, i < resultsIterator.pending.length → s.nextErr i = none)
    (hdecode : ∀ kv ∈ resultsIterator.pending, ∃ p, Unmarshal kv.2 = .ok p) :
    resultsIterator.pending = s.state ∧
    ∃ photos, (GetAllPhoto s).1 = .ok photos ∧
      photos.length = resultsIterator.pending.length ∧
      ∀ (i : Nat) (kv : Bytes × Bytes), resultsIterator.pending[i]? = some kv →
        ∃ p, photos[i]? = some p ∧ Unmarshal kv.2 = .ok p := by
  have hr : s.rangeErr = none := by
    unfold Stub.GetStateByRange at hopen
    cases h : s.rangeErr with
    | none => rfl
    | some e => simp [h] at hopen
  have hp : resultsIterator.pending = s.state := by
    simp only [Stub.GetStateByRange, hr, filter_inRange_unbounded, Except.ok.injEq] at hopen
    rw [← hopen]
  obtain ⟨photos, hf⟩ := decodes_forall2 hdecode
  refine ⟨hp, photos, ?_, hf.length_eq.symm, decodes_forall2_get hf⟩
  rw [GetAllPhoto_of_scan hr, ← hp,
    GetAllPhoto_loop_ok_from s _ photos 0 [] (fun i hi => by rw [Nat.zero_add]; exact hnext i hi) hf]
  rfl

/-- C11 at a store of two records, in key order. -/
theorem C11_get_all_in_scan_order_witness :
    ∃ photos,
      (GetAllPhoto { emptyStub with state :=
        [(ascii "a", encodeStruct ⟨ascii "a", ascii "Alice", ascii "h"⟩),
         (ascii "b", ascii "\x7b\"userName\":\"Bob\"\x7d")] }).1 = .ok photos ∧
      photos.length = 2 ∧
      ∀ (i : Nat) (kv : Bytes × Bytes),
        [(ascii "a", encodeStruct ⟨ascii "a", ascii "Alice", ascii "h"⟩),
         (ascii "b", ascii "\x7b\"userName\":\"Bob\"\x7d")][i]? = some kv →
        ∃ p, photos[i]? = some p ∧ Unmarshal kv.2 = .ok p :=
  (C11_get_all_in_scan_order
    { emptyStub with state :=
        [(ascii "a", encodeStruct ⟨ascii "a", ascii "Alice", ascii "h"⟩),
         (ascii "b", ascii "\x7b\"userName\":\"Bob\"\x7d")] }
    ⟨[(ascii "a", encodeStruct ⟨ascii "a", ascii "Alice", ascii "h"⟩),
         (ascii "b", ascii "\x7b\"userName\":\"Bob\"\x7d")], 0⟩
    rfl (fun _ _ => rfl)
    (by
      intro kv hkv
      simp only [List.mem_cons, List.mem_singleton, List.not_mem_nil, or_false] at hkv
      rcases hkv with rfl | rfl
      · exact ⟨⟨ascii "a", ascii "Alice", ascii "h"⟩, by decide⟩
      · exact ⟨⟨[], ascii "Bob", []⟩, by decide⟩)).2
theorem putPhotos_cons (photo : Photo) (rest : List Photo) (st : List (Bytes × Bytes)) :
    putPhotos (photo :: rest) st =
      putPhotos rest (putKey photo.PhotoID (encodeStruct photo) st) := rfl

theorem putPhotos_append (pre post : List Photo) (st : List (Bytes × Bytes)) :
    putPhotos (pre ++ post) st = putPhotos post (putPhotos pre st) := by
  simp [putPhotos, List.foldl_append]

/-- The loop of `InitLedger` when every put succeeds: all the records are written. -/
theorem InitLedger_loop_ok (photos : List Photo) :
    ∀ (s : Stub), (∀ q ∈ photos, s.putErr q.PhotoID (encodeStruct q) = none) →
      InitLedger.loop s photos = (.ok (), { s with state := putPhotos photos s.state }) := by
  induction photos with
  | nil => intro s _; rfl
  | cons photo rest ih =>
    intro s h
    have h1 := h photo (List.mem_cons_self _ _)
    rw [InitLedger.loop]
    simp only [Marshal, Stub.PutState, h1]
    rw [ih { s with state := putKey photo.PhotoID (encodeStruct photo) s.state }
      (fun q hq => h q (List.mem_cons_of_mem _ hq))]
    rfl

/-- The loop of `InitLedger` when the puts of `pre` succeed and the put of `photo` fails:
the call ends there with the wrapped error, the store holding the writes of `pre` and no
other. -/
theorem InitLedger_loop_fail (pre : List Photo) (photo : Photo) (post : List Photo)
    (e : StubError) :
    ∀ (s : Stub), (∀ q ∈ pre, s.putErr q.PhotoID (encodeStruct q) = none) →
      s.putErr photo.PhotoID (encodeStruct photo) = some e →
      InitLedger.loop s (pre ++ photo :: post) =
        (.error (.putFailed e), { s with state := putPhotos pre s.state }) := by
  induction pre with
  | nil =>
    intro s _ hf
    rw [List.nil_append, InitLedger.loop]
    simp only [Marshal, Stub.PutState, hf]
    rfl
  | cons q rest ih =>
    intro s h hf
    have h1 := h q (List.mem_cons_self _ _)
    rw [List.cons_append, InitLedger.loop]
    simp only [Marshal, Stub.PutState, h1]
    rw [ih { s with state := putKey q.PhotoID (encodeStruct q) s.state }
      (fun q2 hq => h q2 (List.mem_cons_of_mem _ hq)) hf]
    rfl

theorem lookupKey_putPhotos_other (photos : List Photo) :
    ∀ (st : List (Bytes × Bytes)) (key : Bytes), (∀ q ∈ photos, key ≠ q.PhotoID) →
      lookupKey key (putPhotos photos st) = lookupKey key st := by
  induction photos with
  | nil => intro st key _; rfl
  | cons photo rest ih =>
    intro st key h
    rw [putPhotos_cons, ih _ key (fun q hq => h q (List.mem_cons_of_mem _ hq)),
      lookupKey_putKey_other (h photo (List.mem_cons_self _ _))]

theorem lookupKey_putPhotos_mem (photos : List Photo) :
    ∀ (st : List (Bytes × Bytes)) (q : Photo), (photos.map Photo.PhotoID).Nodup → q ∈ photos →
      lookupKey q.PhotoID (putPhotos photos st) = some (encodeStruct q) := by
  induction photos with
  | nil => intro st q _ hq; simp at hq
  | cons photo rest ih =>
    intro st q hnd hq
    rw [List.map_cons, List.nodup_cons] at hnd
    rw [putPhotos_cons]
    rcases List.mem_cons.mp hq with e | hm
    · subst e
      rw [lookupKey_putPhotos_other rest _ _ (fun q2 hq2 e2 =>
        hnd.1 (by rw [e2]; exact List.mem_map_of_mem _ hq2)), lookupKey_putKey_self]
    · exact ih _ q hnd.2 hm

/-- C12: on every initial store, whatever it holds at keys `1`, `2`, `3`: if the three puts
succeed then `InitLedger` succeeds, afterwards keys `1`, `2`, `3` hold the encodings of the
three seed records, and every other key holds what it held before. -/
theorem C12_init_overwrites (s : Stub)
    (hput : ∀ q ∈ seedPhotos, (s.PutState q.PhotoID (encodeStruct q)).1 = .ok ()) :
    (InitLedger s).1 = .ok () ∧
    lookupKey (ascii "1") (InitLedger s).2.state =
      some (encodeStruct ⟨ascii "1", ascii "Alice", ascii "hashvalue1"⟩) ∧
    lookupKey (ascii "2") (InitLedger s).2.state =
      some (encodeStruct ⟨ascii "2", ascii "Bob", ascii "hashvalue2"⟩) ∧
    lookupKey (ascii "3") (InitLedger s).2.state =
      some (encodeStruct ⟨ascii "3", ascii "Bob", ascii "hashvalue2"⟩) ∧
    ∀ key, key ≠ ascii "1" → key ≠ ascii "2" → key ≠ ascii "3" →
      lookupKey key (InitLedger s).2.state = lookupKey key s.state := by
  have h := InitLedger_loop_ok seedPhotos s
    (fun q hq => (PutState_ok_iff s _ _).mp (hput q hq))
  rw [InitLedger, h]
  refine ⟨rfl, ?_, ?_, ?_, ?_⟩
  · show lookupKey (ascii "1") (putKey (ascii "3") _ (putKey (ascii "2") _
      (putKey (ascii "1") _ s.state))) = _
    rw [lookupKey_putKey_other (by decide), lookupKey_putKey_other (by decide),
      lookupKey_putKey_self]
  · show lookupKey (ascii "2") (putKey (ascii "3") _ (putKey (ascii "2") _
      (putKey (ascii "1") _ s.state))) = _
    rw [lookupKey_putKey_other (by decide), lookupKey_putKey_self]
  · show lookupKey (ascii "3") (putKey (ascii "3") _ (putKey (ascii "2") _
      (putKey (ascii "1") _ s.state))) = _
    rw [lookupKey_putKey_self]
  · intro key h1 h2 h3
    show lookupKey key (putKey (ascii "3") _ (putKey (ascii "2") _
      (putKey (ascii "1") _ s.state))) = _
    rw [lookupKey_putKey_other h3, lookupKey_putKey_other h2, lookupKey_putKey_other h1]

/-- C12 at the sample store, which holds a record at key `1` and bytes that are not JSON at
key `9`: key `1` is overwritten, key `9` is kept. -/
theorem C12_init_overwrites_witness :
    (InitLedger sampleStub).1 = .ok () ∧
    lookupKey (ascii "2") (InitLedger sampleStub).2.state =
      some (encodeStruct ⟨ascii "2", ascii "Bob", ascii "hashvalue2"⟩) ∧
    lookupKey (ascii "9") (InitLedger sampleStub).2.state = some (ascii "exists") :=
  ⟨(C12_init_overwrites sampleStub (fun _ _ => rfl)).1,
    (C12_init_overwrites sampleStub (fun _ _ => rfl)).2.2.1,
    ((C12_init_overwrites sampleStub (fun _ _ => rfl)).2.2.2.2 (ascii "9")
      (by decide) (by decide) (by decide)).trans (by decide)⟩

/-- C13: if the puts of the seed records before the k-th succeed and the put of the k-th
fails, `InitLedger` returns the wrapped error of that put, and the store it leaves is the
initial store with the records before the k-th written and nothing else: no roll back, and
no write for the k-th record or those after it, whatever the store would answer to them. -/
theorem C13_init_aborts_at_first_failure (s : Stub) (pre post : List Photo) (photo : Photo)
    (e : StubError) (hsplit : seedPhotos = pre ++ photo :: post)
    (hpre : ∀ q ∈ pre, (s.PutState q.PhotoID (encodeStruct q)).1 = .ok ())
    (hfail : (s.PutState photo.PhotoID (encodeStruct photo)).1 = .error e) :
    InitLedger s = (.error (.putFailed e), { s with state := putPhotos pre s.state }) ∧
    (∀ q ∈ pre, lookupKey q.PhotoID (InitLedger s).2.state = some (encodeStruct q)) ∧
    (∀ key, (∀ q ∈ pre, key ≠ q.PhotoID) →
      lookupKey key (InitLedger s).2.state = lookupKey key s.state) := by
  have hf : s.putErr photo.PhotoID (encodeStruct photo) = some e := by
    unfold Stub.PutState at hfail
    cases h : s.putErr photo.PhotoID (encodeStruct photo) with
    | none => simp [h] at hfail
    | some e2 =>
      simp only [h, Except.error.injEq] at hfail
      rw [hfail]
  have h := InitLedger_loop_fail pre photo post e s
    (fun q hq => (PutState_ok_iff s _ _).mp (hpre q hq)) hf
  rw [InitLedger, hsplit, h]
  have hnd : (pre.map Photo.PhotoID).Nodup := by
    have h0 : (seedPhotos.map Photo.PhotoID).Nodup := by decide
    rw [hsplit, List.map_append] at h0
    exact (List.nodup_append.mp h0).1
  refine ⟨rfl, ?_, ?_⟩
  · intro q hq
    exact lookupKey_putPhotos_mem pre _ q hnd hq
  · intro key hk
    exact lookupKey_putPhotos_other pre _ key hk

/-- C13 at the sample store with a failing put for key `2`: the first seed record is written,
keys `2` and `3` stay absent, key `9` is kept. -/
theorem C13_init_aborts_at_first_failure_witness :
    InitLedger { sampleStub with
        putErr := fun key _ => if key = ascii "2" then some ⟨ascii "down"⟩ else none } =
      (.error (.putFailed ⟨ascii "down"⟩),
        { sampleStub with
          putErr := fun key _ => if key = ascii "2" then some ⟨ascii "down"⟩ else none
          state := putPhotos [⟨ascii "1", ascii "Alice", ascii "hashvalue1"⟩] sampleStub.state }) ∧
    lookupKey (ascii "2") (putPhotos [⟨ascii "1", ascii "Alice", ascii "hashvalue1"⟩]
      sampleStub.state) = none ∧
    lookupKey (ascii "3") (putPhotos [⟨ascii "1", ascii "Alice", ascii "hashvalue1"⟩]
      sampleStub.state) = none :=
  ⟨(C13_init_aborts_at_first_failure
      { sampleStub with
        putErr := fun key _ => if key = ascii "2" then some ⟨ascii "down"⟩ else none }
      [⟨ascii "1", ascii "Alice", ascii "hashvalue1"⟩]
      [⟨ascii "3", ascii "Bob", ascii "hashvalue2"⟩]
      ⟨ascii "2", ascii "Bob", ascii "hashvalue2"⟩ ⟨ascii "down"⟩ rfl
      (by
        intro q hq
        rw [List.mem_singleton] at hq
        subst hq
        decide)
      (by decide)).1,
    by decide, by decide⟩
/-! ## The contract: failures -/

/-- C14, as stated, fails: stored bytes that are JSON but not the encoding of a record (the
value `null`, an object of another schema) make `QueryPhoto` return the empty record and no
error; and no record is marshalled to those bytes. -/
theorem C14_query_accepts_other_json :
    (QueryPhoto { emptyStub with state := [(ascii "1", ascii "null")] } (ascii "1")).1 =
      .ok ⟨[], [], []⟩ ∧
    (QueryPhoto { emptyStub with state := [(ascii "1", ascii "\x7b\"owner\":\"Bob\"\x7d")] }
      (ascii "1")).1 = .ok ⟨[], [], []⟩ ∧
    Marshal ⟨[], [], []⟩ ≠ .ok (ascii "null") ∧
    Marshal ⟨[], [], []⟩ ≠ .ok (ascii "\x7b\"owner\":\"Bob\"\x7d") := by
  decide

/-- C14, amended: for every id whose stored bytes are present, `QueryPhoto` returns the error
of `json.Unmarshal` and no record when `json.Unmarshal` rejects the bytes, and the decoded
record when it accepts them; and it returns a record only when the key is present and the
bytes decode, the record being their decoding. -/
theorem C14_query_surfaces_decoding_errors (s : Stub) (photoID : Bytes) :
    (∀ bytes, (s.GetState photoID).1 = .ok (some bytes) →
      (∀ e, Unmarshal bytes = .error e → QueryPhoto s photoID = (.error (.json e), s)) ∧
      (∀ photo, Unmarshal bytes = .ok photo → QueryPhoto s photoID = (.ok photo, s))) ∧
    (∀ photo, (QueryPhoto s photoID).1 = .ok photo →
      ∃ bytes, (s.GetState photoID).1 = .ok (some bytes) ∧ Unmarshal bytes = .ok photo) := by
  refine ⟨?_, ?_⟩
  · intro bytes h
    obtain ⟨hg, hl⟩ := (GetState_ok_iff s photoID _).mp h
    refine ⟨?_, ?_⟩
    · intro e he
      simp [QueryPhoto, Stub.GetState, hg, hl, he]
    · intro photo hp
      simp [QueryPhoto, Stub.GetState, hg, hl, hp]
  · intro photo h
    unfold QueryPhoto at h
    unfold Stub.GetState at h ⊢
    cases hg : s.getErr photoID with
    | some e => simp [hg] at h
    | none =>
      cases hl : lookupKey photoID s.state with
      | none => simp [hg, hl] at h
      | some bytes =>
        refine ⟨bytes, rfl, ?_⟩
        cases hu : Unmarshal bytes with
        | error e => simp [hg, hl, hu] at h
        | ok p =>
          simp only [hg, hl, hu, Except.ok.injEq] at h
          rw [h]

/-- C14, amended, at the sample store: key `9` holds bytes that are not JSON. -/
theorem C14_query_surfaces_decoding_errors_witness :
    (sampleStub.GetState (ascii "9")).1 = .ok (some (ascii "exists")) ∧
    Unmarshal (ascii "exists") = .error .malformed ∧
    QueryPhoto sampleStub (ascii "9") = (.error (.json .malformed), sampleStub) :=
  ⟨by decide, by decide,
    ((C14_query_surfaces_decoding_errors sampleStub (ascii "9")).1 (ascii "exists")
      (by decide)).1 .malformed (by decide)⟩
/-- The loop of `GetAllPhoto` when the values before some pair decode, the `Next` calls for
them succeed and the `Next` call for that pair fails: the error of `Next` is returned as it
is. -/
theorem GetAllPhoto_loop_next_fail (s : Stub) (kv : Bytes × Bytes) (post : List (Bytes × Bytes))
    (e : StubError) :
    ∀ (pre : List (Bytes × Bytes)) (position : Nat) (assets : List Photo),
      (∀ i, i < pre.length → s.nextErr (position + i) = none) →
      (∀ kv2 ∈ pre, ∃ p, Unmarshal kv2.2 = .ok p) →
      s.nextErr (position + pre.length) = some e →
      GetAllPhoto.loop s (pre ++ kv :: post) position assets = .error (.stub e) := by
  intro pre
  induction pre with
  | nil =>
    intro position assets _ _ hf
    rw [List.length_nil, Nat.add_zero] at hf
    rw [List.nil_append, GetAllPhoto.loop, hf]
  | cons kv0 rest ih =>
    intro position assets hn hd hf
    have h0 := hn 0 (by simp)
    rw [Nat.add_zero] at h0
    obtain ⟨p, hp⟩ := hd kv0 (List.mem_cons_self _ _)
    rw [List.cons_append, GetAllPhoto.loop, h0]
    simp only [hp]
    apply ih
    · intro i hi
      have := hn (i + 1) (by simp only [List.length_cons]; omega)
      rw [← this]; congr 1; omega
    · intro kv2 hkv2
      exact hd kv2 (List.mem_cons_of_mem _ hkv2)
    · rw [← hf]; congr 1; simp only [List.length_cons]; omega

/-- C15, as stated, fails: the error of a failed put in `CreatePhoto`, of a failed delete in
`DeletePhoto`, and of a failed scan open or scan advance in `GetAllPhoto` is returned as the
store gave it, without a wrapping message. -/
theorem C15_store_errors_passed_through :
    (CreatePhoto { emptyStub with putErr := fun _ _ => some ⟨ascii "down"⟩ }
      (ascii "1") (ascii "Alice") (ascii "h")).1 = .error (.stub ⟨ascii "down"⟩) ∧
    (DeletePhoto { sampleStub with delErr := fun _ => some ⟨ascii "down"⟩ } (ascii "1")).1 =
      .error (.stub ⟨ascii "down"⟩) ∧
    (GetAllPhoto { sampleStub with rangeErr := some ⟨ascii "down"⟩ }).1 =
      .error (.stub ⟨ascii "down"⟩) ∧
    (GetAllPhoto { sampleStub with nextErr := fun _ => some ⟨ascii "down"⟩ }).1 =
      .error (.stub ⟨ascii "down"⟩) := by
  decide

/-- C15, amended: every failure of a store call makes the operation fail with an error that
carries the store's error.  A failed get is wrapped in a read-failure message by
`QueryPhoto` and `PhotoExists`, and so by `CreatePhoto` and `DeletePhoto`; a failed put is
wrapped in a put-failure message by `InitLedger`; a failed put in `CreatePhoto`, a failed
delete in `DeletePhoto`, a failed scan open and a failed scan advance in `GetAllPhoto` are
returned unchanged. -/
theorem C15_store_errors_surfaced (s : Stub) (e : StubError) :
    (∀ photoID, (s.GetState photoID).1 = .error e →
      (QueryPhoto s photoID).1 = .error (.readFailed e) ∧
      (PhotoExists s photoID).1 = .error (.readFailed e) ∧
      (∀ userName photoHash,
        (CreatePhoto s photoID userName photoHash).1 = .error (.readFailed e)) ∧
      (DeletePhoto s photoID).1 = .error (.readFailed e)) ∧
    (∀ pre photo post, seedPhotos = pre ++ photo :: post →
      (∀ q ∈ pre, (s.PutState q.PhotoID (encodeStruct q)).1 = .ok ()) →
      (s.PutState photo.PhotoID (encodeStruct photo)).1 = .error e →
      (InitLedger s).1 = .error (.putFailed e)) ∧
    (∀ photoID userName photoHash, (s.GetState photoID).1 = .ok none →
      (s.PutState photoID (encodeStruct ⟨photoID, userName, photoHash⟩)).1 = .error e →
      (CreatePhoto s photoID userName photoHash).1 = .error (.stub e)) ∧
    (∀ photoID value, (s.GetState photoID).1 = .ok (some value) →
      (s.DelState photoID).1 = .error e →
      (DeletePhoto s photoID).1 = .error (.stub e)) ∧
    ((s.GetStateByRange [] []).1 = .error e → (GetAllPhoto s).1 = .error (.stub e)) ∧
    (∀ pre kv post, s.rangeErr = none → s.state = pre ++ kv :: post →
      (∀ i, i < pre.length → s.nextErr i = none) →
      (∀ kv2 ∈ pre, ∃ p, Unmarshal kv2.2 = .ok p) →
      s.nextErr pre.length = some e →
      (GetAllPhoto s).1 = .error (.stub e)) := by
  have getErr_of : ∀ photoID, (s.GetState photoID).1 = .error e → s.getErr photoID = some e := by
    intro photoID h
    unfold Stub.GetState at h
    cases hg : s.getErr photoID with
    | none => simp [hg] at h
    | some e2 =>
      simp only [hg, Except.error.injEq] at h
      rw [h]
  refine ⟨?_, ?_, ?_, ?_, ?_, ?_⟩
  · intro photoID h
    have hg := getErr_of photoID h
    refine ⟨?_, ?_, ?_, ?_⟩
    · simp [QueryPhoto, Stub.GetState, hg]
    · simp [PhotoExists, Stub.GetState, hg]
    · intro userName photoHash
      simp [CreatePhoto, PhotoExists, Stub.GetState, hg]
    · simp [DeletePhoto, PhotoExists, Stub.GetState, hg]
  · intro pre photo post hsplit hpre hfail
    have hf : s.putErr photo.PhotoID (encodeStruct photo) = some e := by
      unfold Stub.PutState at hfail
      cases h : s.putErr photo.PhotoID (encodeStruct photo) with
      | none => simp [h] at hfail
      | some e2 =>
        simp only [h, Except.error.injEq] at hfail
        rw [hfail]
    rw [InitLedger, hsplit, InitLedger_loop_fail pre photo post e s
      (fun q hq => (PutState_ok_iff s _ _).mp (hpre q hq)) hf]
  · intro photoID userName photoHash hget hfail
    have hf : s.putErr photoID (encodeStruct ⟨photoID, userName, photoHash⟩) = some e := by
      unfold Stub.PutState at hfail
      cases h : s.putErr photoID (encodeStruct ⟨photoID, userName, photoHash⟩) with
      | none => simp [h] at hfail
      | some e2 =>
        simp only [h, Except.error.injEq] at hfail
        rw [hfail]
    simp [CreatePhoto, PhotoExists_of_GetState hget, Marshal, Stub.PutState, hf]
  · intro photoID value hget hfail
    have hf : s.delErr photoID = some e := by
      unfold Stub.DelState at hfail
      cases h : s.delErr photoID with
      | none => simp [h] at hfail
      | some e2 =>
        simp only [h, Except.error.injEq] at hfail
        rw [hfail]
    simp [DeletePhoto, PhotoExists_of_GetState hget, Stub.DelState, hf]
  · intro h
    unfold Stub.GetStateByRange at h
    cases hr : s.rangeErr with
    | none => simp [hr] at h
    | some e2 =>
      simp only [hr, Except.error.injEq] at h
      simp [GetAllPhoto, Stub.GetStateByRange, hr, h]
  · intro pre kv post hr hst hn hd hf
    rw [GetAllPhoto_of_scan hr, hst]
    exact GetAllPhoto_loop_next_fail s kv post e pre 0 []
      (fun i hi => by rw [Nat.zero_add]; exact hn i hi) hd (by rw [Nat.zero_add]; exact hf)

/-- C15, amended, at stores in which one call fails: the get in `QueryPhoto` (wrapped) and
the put in `CreatePhoto` (unchanged). -/
theorem C15_store_errors_surfaced_witness :
    (QueryPhoto { sampleStub with getErr := fun _ => some ⟨ascii "down"⟩ } (ascii "1")).1 =
      .error (.readFailed ⟨ascii "down"⟩) ∧
    (CreatePhoto { emptyStub with putErr := fun _ _ => some ⟨ascii "down"⟩ }
      (ascii "1") (ascii "Alice") (ascii "h")).1 = .error (.stub ⟨ascii "down"⟩) :=
  ⟨((C15_store_errors_surfaced { sampleStub with getErr := fun _ => some ⟨ascii "down"⟩ }
      ⟨ascii "down"⟩).1 (ascii "1") rfl).1,
    (C15_store_errors_surfaced { emptyStub with putErr := fun _ _ => some ⟨ascii "down"⟩ }
      ⟨ascii "down"⟩).2.2.1 (ascii "1") (ascii "Alice") (ascii "h") rfl rfl⟩
/-- C16: whenever `GetAllPhoto` has opened the scan cursor, the loop runs with the cursor
open and the store that `GetAllPhoto` returns is the store after the opening with the cursor
closed, so that as many cursors are open after the call as before it; this holds whatever
the loop returns: the list, the error of a `Next`, or the error of an `Unmarshal`. -/
theorem C16_cursor_closed_on_return (s : Stub) (resultsIterator : Iterator)
    (hopen : (s.GetStateByRange [] []).1 = .ok resultsIterator) :
    (s.GetStateByRange [] []).2.openIterators = s.openIterators + 1 ∧
    (GetAllPhoto s).1 =
      GetAllPhoto.loop (s.GetStateByRange [] []).2 resultsIterator.pending
        resultsIterator.position [] ∧
    (GetAllPhoto s).2 = (s.GetStateByRange [] []).2.closeIterator ∧
    (GetAllPhoto s).2.openIterators = s.openIterators := by
  have hr : s.rangeErr = none := by
    unfold Stub.GetStateByRange at hopen
    cases h : s.rangeErr with
    | none => rfl
    | some e => simp [h] at hopen
  simp only [Stub.GetStateByRange, hr, Except.ok.injEq] at hopen
  subst hopen
  simp [GetAllPhoto, Stub.GetStateByRange, hr, Stub.closeIterator]

/-- C16 on the three exit paths: a scan that completes, a scan whose second `Next` fails, and
a scan whose second value does not decode; no cursor is left open. -/
theorem C16_cursor_closed_on_return_witness :
    ((GetAllPhoto (InitLedger emptyStub).2).1 = .ok seedPhotos ∧
      (GetAllPhoto (InitLedger emptyStub).2).2.openIterators = 0) ∧
    ((GetAllPhoto { (InitLedger emptyStub).2 with
          nextErr := fun i => if i = 1 then some ⟨ascii "down"⟩ else none }).1 =
        .error (.stub ⟨ascii "down"⟩) ∧
      (GetAllPhoto { (InitLedger emptyStub).2 with
          nextErr := fun i => if i = 1 then some ⟨ascii "down"⟩ else none }).2.openIterators =
        0) ∧
    ((GetAllPhoto sampleStub).1 = .error (.json .malformed) ∧
      (GetAllPhoto sampleStub).2.openIterators = 0) :=
  ⟨⟨by decide,
      (C16_cursor_closed_on_return (InitLedger emptyStub).2
        ⟨(InitLedger emptyStub).2.state, 0⟩ rfl).2.2.2⟩,
    ⟨by decide,
      (C16_cursor_closed_on_return { (InitLedger emptyStub).2 with
          nextErr := fun i => if i = 1 then some ⟨ascii "down"⟩ else none }
        ⟨(InitLedger emptyStub).2.state, 0⟩ rfl).2.2.2⟩,
    ⟨by decide, (C16_cursor_closed_on_return sampleStub ⟨sampleStub.state, 0⟩ rfl).2.2.2⟩⟩

/-! ## The contract: what `CreatePhoto` stores -/

/-- `CreatePhoto` succeeds exactly when the store's get returns no bytes and the put
succeeds. -/
theorem CreatePhoto_ok_iff (s : Stub) (photoID userName photoHash : Bytes) :
    (CreatePhoto s photoID userName photoHash).1 = .ok () ↔
      (s.GetState photoID).1 = .ok none ∧
        (s.PutState photoID (encodeStruct ⟨photoID, userName, photoHash⟩)).1 = .ok () := by
  constructor
  · exact CreatePhoto_ok_inv
  · intro h
    rw [CreatePhoto_of_absent userName photoHash h.1 h.2]

/-- What a successful `CreatePhoto` leaves under the id: the encoding of the record made of
its three arguments. -/
theorem CreatePhoto_stores {s : Stub} {photoID userName photoHash : Bytes}
    (h : (CreatePhoto s photoID userName photoHash).1 = .ok ()) :
    lookupKey photoID (CreatePhoto s photoID userName photoHash).2.state =
      some (encodeStruct ⟨photoID, userName, photoHash⟩) := by
  obtain ⟨hget, hput⟩ := CreatePhoto_ok_inv h
  rw [CreatePhoto_of_absent userName photoHash hget hput]
  exact lookupKey_putKey_self _ _ _

/-- The loop of `InitLedger` succeeds only if every put succeeds. -/
theorem InitLedger_loop_ok_inv (photos : List Photo) :
    ∀ (s : Stub), (InitLedger.loop s photos).1 = .ok () →
      ∀ q ∈ photos, s.putErr q.PhotoID (encodeStruct q) = none := by
  induction photos with
  | nil => intro s _ q hq; simp at hq
  | cons photo rest ih =>
    intro s h q hq
    rw [InitLedger.loop] at h
    simp only [Marshal, Stub.PutState] at h
    cases hp : s.putErr photo.PhotoID (encodeStruct photo) with
    | some e => simp [hp] at h
    | none =>
      simp only [hp] at h
      rcases List.mem_cons.mp hq with e | hm
      · rw [e]; exact hp
      · exact ih { s with state := putKey photo.PhotoID (encodeStruct photo) s.state } h q hm

/-- C17, as stated, fails: `CreatePhoto` succeeds with an empty owner, and, on a store that
accepts the empty key, with an empty id. -/
theorem C17_create_accepts_empty :
    (CreatePhoto emptyStub (ascii "1") [] (ascii "h")).1 = .ok () ∧
    lookupKey (ascii "1") (CreatePhoto emptyStub (ascii "1") [] (ascii "h")).2.state =
      some (ascii "\x7b\"photoID\":\"1\",\"userName\":\"\",\"photoHash\":\"h\"\x7d") ∧
    (CreatePhoto emptyStub [] [] []).1 = .ok () := by
  decide

/-- C17, amended: `CreatePhoto` checks neither the id nor the owner: it succeeds exactly when
the store's get returns no bytes for the id and the put succeeds, whatever the three
strings; and the record it then stores carries the id, owner and hash it was given. -/
theorem C17_create_stores_inputs_unchecked (s : Stub) (photoID userName photoHash : Bytes) :
    ((CreatePhoto s photoID userName photoHash).1 = .ok () ↔
      (s.GetState photoID).1 = .ok none ∧
        (s.PutState photoID (encodeStruct ⟨photoID, userName, photoHash⟩)).1 = .ok ()) ∧
    ((CreatePhoto s photoID userName photoHash).1 = .ok () →
      lookupKey photoID (CreatePhoto s photoID userName photoHash).2.state =
        some (encodeStruct ⟨photoID, userName, photoHash⟩)) := by
  exact ⟨CreatePhoto_ok_iff s photoID userName photoHash, CreatePhoto_stores⟩

/-- C17, amended, at the sample store and an empty owner. -/
theorem C17_create_stores_inputs_unchecked_witness :
    (CreatePhoto sampleStub (ascii "2") [] (ascii "h")).1 = .ok () ∧
    lookupKey (ascii "2") (CreatePhoto sampleStub (ascii "2") [] (ascii "h")).2.state =
      some (encodeStruct ⟨ascii "2", [], ascii "h"⟩) :=
  ⟨by decide,
    (C17_create_stores_inputs_unchecked sampleStub (ascii "2") [] (ascii "h")).2 (by decide)⟩

/-- C18: for every (id, owner, contentHash) and every two stores on which `CreatePhoto`
succeeds, the bytes written under the id are the same in both; they are the bytes the loop
of `InitLedger` writes for a record of the same three fields, and for each seed record the
bytes `InitLedger` stores are those `CreatePhoto` stores for the seed's fields. -/
theorem C18_encoding_deterministic (s1 s2 : Stub) (photoID userName photoHash : Bytes)
    (h1 : (CreatePhoto s1 photoID userName photoHash).1 = .ok ())
    (h2 : (CreatePhoto s2 photoID userName photoHash).1 = .ok ()) :
    lookupKey photoID (CreatePhoto s1 photoID userName photoHash).2.state =
      lookupKey photoID (CreatePhoto s2 photoID userName photoHash).2.state ∧
    (∀ s3 : Stub,
      (InitLedger.loop s3 [⟨photoID, userName, photoHash⟩]).1 = .ok () →
      lookupKey photoID (InitLedger.loop s3 [⟨photoID, userName, photoHash⟩]).2.state =
        lookupKey photoID (CreatePhoto s1 photoID userName photoHash).2.state) ∧
    (∀ s3 : Stub, (InitLedger s3).1 = .ok () →
      ⟨photoID, userName, photoHash⟩ ∈ seedPhotos →
      lookupKey photoID (InitLedger s3).2.state =
        lookupKey photoID (CreatePhoto s1 photoID userName photoHash).2.state) := by
  rw [CreatePhoto_stores h1, CreatePhoto_stores h2]
  refine ⟨rfl, ?_, ?_⟩
  · intro s3 h3
    have hp := InitLedger_loop_ok_inv _ s3 h3
    rw [InitLedger_loop_ok _ s3 hp]
    exact lookupKey_putKey_self _ _ _
  · intro s3 h3 hmem
    have hp := InitLedger_loop_ok_inv _ s3 h3
    rw [InitLedger, InitLedger_loop_ok _ s3 hp]
    exact lookupKey_putPhotos_mem seedPhotos _ ⟨photoID, userName, photoHash⟩ (by decide) hmem

/-- C18 at the empty store and the sample store, for the fields of the second seed record. -/
theorem C18_encoding_deterministic_witness :
    lookupKey (ascii "2")
        (CreatePhoto emptyStub (ascii "2") (ascii "Bob") (ascii "hashvalue2")).2.state =
      lookupKey (ascii "2")
        (CreatePhoto sampleStub (ascii "2") (ascii "Bob") (ascii "hashvalue2")).2.state ∧
    lookupKey (ascii "2") (InitLedger sampleStub).2.state =
      lookupKey (ascii "2")
        (CreatePhoto emptyStub (ascii "2") (ascii "Bob") (ascii "hashvalue2")).2.state :=
  ⟨(C18_encoding_deterministic emptyStub sampleStub (ascii "2") (ascii "Bob")
      (ascii "hashvalue2") (by decide) (by decide)).1,
    (C18_encoding_deterministic emptyStub sampleStub (ascii "2") (ascii "Bob")
      (ascii "hashvalue2") (by decide) (by decide)).2.2 sampleStub (by decide) (by decide)⟩
/-! ## The contract: what a sequence of calls leaves in the store -/

theorem mem_putKey {key value : Bytes} {st : List (Bytes × Bytes)} {kv : Bytes × Bytes}
    (h : kv ∈ putKey key value st) : kv = (key, value) ∨ kv ∈ st := by
  rw [putKey, (insertSorted_perm key value _).mem_iff, List.mem_cons] at h
  rcases h with e | hm
  · exact Or.inl e
  · exact Or.inr (List.mem_filter.mp hm).1

theorem mem_eraseKey {key : Bytes} {st : List (Bytes × Bytes)} {kv : Bytes × Bytes}
    (h : kv ∈ eraseKey key st) : kv ∈ st :=
  (List.mem_filter.mp h).1

theorem KeysMatchIds_putKey (p : Photo) {st : List (Bytes × Bytes)} (h : KeysMatchIds st) :
    KeysMatchIds (putKey p.PhotoID (encodeStruct p) st) := by
  intro kv hkv
  rcases mem_putKey hkv with e | hm
  · exact ⟨p, by rw [e], by rw [e]⟩
  · exact h kv hm

theorem KeysMatchIds_eraseKey (key : Bytes) {st : List (Bytes × Bytes)} (h : KeysMatchIds st) :
    KeysMatchIds (eraseKey key st) :=
  fun kv hkv => h kv (mem_eraseKey hkv)

/-- The store the loop of `InitLedger` leaves, whether it succeeds or fails: some of the
records, from the first on, have been put. -/
theorem InitLedger_loop_state (photos : List Photo) :
    ∀ (s : Stub), ∃ pre post, photos = pre ++ post ∧
      (InitLedger.loop s photos).2 = { s with state := putPhotos pre s.state } := by
  induction photos with
  | nil => intro s; exact ⟨[], [], rfl, rfl⟩
  | cons photo rest ih =>
    intro s
    rw [InitLedger.loop]
    simp only [Marshal, Stub.PutState]
    cases hp : s.putErr photo.PhotoID (encodeStruct photo) with
    | some e => exact ⟨[], photo :: rest, rfl, rfl⟩
    | none =>
      obtain ⟨pre, post, e1, e2⟩ :=
        ih { s with state := putKey photo.PhotoID (encodeStruct photo) s.state }
      exact ⟨photo :: pre, post, by rw [e1]; rfl, by simp only [e2]; rfl⟩

theorem KeysMatchIds_putPhotos (photos : List Photo) :
    ∀ (st : List (Bytes × Bytes)), KeysMatchIds st → KeysMatchIds (putPhotos photos st) := by
  induction photos with
  | nil => intro st h; exact h
  | cons photo rest ih =>
    intro st h
    rw [putPhotos_cons]
    exact ih _ (KeysMatchIds_putKey photo h)

/-- The store `CreatePhoto` leaves, whether it succeeds or fails. -/
theorem CreatePhoto_state (s : Stub) (photoID userName photoHash : Bytes) :
    (CreatePhoto s photoID userName photoHash).2 = s ∨
    (CreatePhoto s photoID userName photoHash).2 =
      { s with state := putKey photoID (encodeStruct ⟨photoID, userName, photoHash⟩) s.state } := by
  unfold CreatePhoto PhotoExists Stub.GetState
  cases hg : s.getErr photoID with
  | some e => left; rfl
  | none =>
    cases hl : lookupKey photoID s.state with
    | some v => left; rfl
    | none =>
      simp only [Marshal, Stub.PutState, Option.isSome_none]
      cases hp : s.putErr photoID (encodeStruct ⟨photoID, userName, photoHash⟩) with
      | some e => left; rfl
      | none => right; rfl

/-- The store `DeletePhoto` leaves, whether it succeeds or fails. -/
theorem DeletePhoto_state (s : Stub) (photoID : Bytes) :
    (DeletePhoto s photoID).2 = s ∨
    (DeletePhoto s photoID).2 = { s with state := eraseKey photoID s.state } := by
  unfold DeletePhoto PhotoExists Stub.GetState
  cases hg : s.getErr photoID with
  | some e => left; rfl
  | none =>
    cases hl : lookupKey photoID s.state with
    | none => left; rfl
    | some v =>
      simp only [Stub.DelState, Option.isSome_some]
      cases hp : s.delErr photoID with
      | some e => left; rfl
      | none => right; rfl

theorem KeysMatchIds_applyOp (s : Stub) (op : Op) (h : KeysMatchIds s.state) :
    KeysMatchIds (applyOp s op).state := by
  cases op with
  | initLedger =>
    obtain ⟨pre, post, _, e⟩ := InitLedger_loop_state seedPhotos s
    rw [applyOp, InitLedger, e]
    exact KeysMatchIds_putPhotos pre _ h
  | createPhoto photoID userName photoHash =>
    rw [applyOp]
    rcases CreatePhoto_state s photoID userName photoHash with e | e <;> rw [e]
    · exact h
    · exact KeysMatchIds_putKey ⟨photoID, userName, photoHash⟩ h
  | deletePhoto photoID =>
    rw [applyOp]
    rcases DeletePhoto_state s photoID with e | e <;> rw [e]
    · exact h
    · exact KeysMatchIds_eraseKey photoID h

theorem KeysMatchIds_applyOps (ops : List Op) :
    ∀ (s : Stub), KeysMatchIds s.state → KeysMatchIds (applyOps s ops).state := by
  induction ops with
  | nil => intro s h; exact h
  | cons op rest ih =>
    intro s h
    exact ih _ (KeysMatchIds_applyOp s op h)

theorem lookupKey_mem {key value : Bytes} {st : List (Bytes × Bytes)}
    (h : lookupKey key st = some value) : (key, value) ∈ st := by
  induction st with
  | nil => simp [lookupKey] at h
  | cons kv rest ih =>
    rw [lookupKey_cons] at h
    by_cases hk : kv.1 = key
    · rw [if_pos hk, Option.some.injEq] at h
      rw [← hk, ← h]
      exact List.mem_cons_self _ _
    · rw [if_neg hk] at h
      exact List.mem_cons_of_mem _ (ih h)

/-- The loop of `GetAllPhoto` never returns a decoding error when every value decodes. -/
theorem GetAllPhoto_loop_no_json_error (s : Stub) :
    ∀ (entries : List (Bytes × Bytes)) (position : Nat) (assets : List Photo) (e : JsonError),
      (∀ kv ∈ entries, ∃ p, Unmarshal kv.2 = .ok p) →
      GetAllPhoto.loop s entries position assets ≠ .error (.json e) := by
  intro entries
  induction entries with
  | nil =>
    intro position assets e _ h
    simp [GetAllPhoto.loop] at h
  | cons kv rest ih =>
    intro position assets e hd
    rw [GetAllPhoto.loop]
    cases hn : s.nextErr position with
    | some e2 => simp
    | none =>
      obtain ⟨p, hp⟩ := hd kv (List.mem_cons_self _ _)
      simp only [hp]
      exact ih _ _ e (fun kv2 hkv2 => hd kv2 (List.mem_cons_of_mem _ hkv2))

/-- C19, as stated, fails: after `CreatePhoto` with the id `FF` (one byte, not UTF-8), key
`FF` is present and its bytes decode to a record whose id is `EF BF BD`, not the key. -/
theorem C19_key_id_counterexample :
    (CreatePhoto emptyStub [0xFF] (ascii "Alice") (ascii "h")).1 = .ok () ∧
    (QueryPhoto (applyOps emptyStub [.createPhoto [0xFF] (ascii "Alice") (ascii "h")])
      [0xFF]).1 = .ok ⟨[0xEF, 0xBF, 0xBD], ascii "Alice", ascii "h"⟩ ∧
    ([0xEF, 0xBF, 0xBD] : Bytes) ≠ [0xFF] := by
  decide

/-- C19, amended: in every store reached from an empty store by any sequence of `InitLedger`,
`CreatePhoto` and `DeletePhoto` calls, successful or not, every pair holds the encoding of a
record whose id is the key, and its bytes decode to that record with the ill-formed bytes of
its strings replaced by U+FFFD, so that the decoded id is the key whenever the key is
well-formed UTF-8; `GetAllPhoto` and `QueryPhoto` never fail with a decoding error on such a
store. -/
theorem C19_reachable_store_decodes (s : Stub) (ops : List Op) (hempty : s.state = []) :
    (∀ kv ∈ (applyOps s ops).state, ∃ p : Photo,
      Unmarshal kv.2 = .ok p ∧ p.PhotoID = coerceUTF8 kv.1 ∧
      (ValidUTF8 kv.1 = true → p.PhotoID = kv.1)) ∧
    (∀ e, (GetAllPhoto (applyOps s ops)).1 ≠ .error (.json e)) ∧
    (∀ photoID e, (QueryPhoto (applyOps s ops) photoID).1 ≠ .error (.json e)) := by
  have hk : KeysMatchIds (applyOps s ops).state :=
    KeysMatchIds_applyOps ops s (by rw [hempty]; intro kv hkv; simp at hkv)
  have hd : ∀ kv ∈ (applyOps s ops).state, ∃ p, Unmarshal kv.2 = .ok p := by
    intro kv hkv
    obtain ⟨p, e1, _⟩ := hk kv hkv
    exact ⟨p.coerce, by rw [e1, Unmarshal_encodeStruct]⟩
  refine ⟨?_, ?_, ?_⟩
  · intro kv hkv
    obtain ⟨p, e1, e2⟩ := hk kv hkv
    refine ⟨p.coerce, by rw [e1, Unmarshal_encodeStruct], by rw [← e2]; rfl, ?_⟩
    intro hv
    rw [← e2] at hv ⊢
    exact coerceUTF8_of_valid _ hv
  · intro e
    cases hr : (applyOps s ops).rangeErr with
    | some cause => simp [GetAllPhoto, Stub.GetStateByRange, hr]
    | none =>
      rw [GetAllPhoto_of_scan hr]
      exact GetAllPhoto_loop_no_json_error _ _ _ _ e hd
  · intro photoID e
    unfold QueryPhoto Stub.GetState
    cases hg : (applyOps s ops).getErr photoID with
    | some cause => simp
    | none =>
      cases hl : lookupKey photoID (applyOps s ops).state with
      | none => simp
      | some bytes =>
        obtain ⟨p, hp⟩ := hd _ (lookupKey_mem hl)
        simp only at hp
        simp [hp]

/-- C19, amended, at a sequence with a failing second `CreatePhoto`, an `InitLedger` and a
`DeletePhoto`: `GetAllPhoto` does not fail with a syntax error. -/
theorem C19_reachable_store_decodes_witness :
    emptyStub.state = [] ∧
    (GetAllPhoto (applyOps emptyStub
      [.createPhoto (ascii "2") (ascii "Eve") [0xFF], .createPhoto (ascii "2") [] [],
        .initLedger, .deletePhoto (ascii "3")])).1 ≠ .error (.json .malformed) :=
  ⟨rfl, (C19_reachable_store_decodes emptyStub
      [.createPhoto (ascii "2") (ascii "Eve") [0xFF], .createPhoto (ascii "2") [] [],
        .initLedger, .deletePhoto (ascii "3")] rfl).2.1 .malformed⟩

/-- C20: a successful `CreatePhoto(id, ...)` leaves every key other than the id with the
bytes it had, and so does a successful `DeletePhoto(id)`; `QueryPhoto`, `PhotoExists` and
`GetAllPhoto` return the store as they received it, whether they succeed or fail. -/
theorem C20_frame (s : Stub) (photoID : Bytes) :
    (∀ userName photoHash, (CreatePhoto s photoID userName photoHash).1 = .ok () →
      ∀ key, key ≠ photoID →
        lookupKey key (CreatePhoto s photoID userName photoHash).2.state =
          lookupKey key s.state) ∧
    ((DeletePhoto s photoID).1 = .ok () →
      ∀ key, key ≠ photoID →
        lookupKey key (DeletePhoto s photoID).2.state = lookupKey key s.state) ∧
    (QueryPhoto s photoID).2 = s ∧
    (PhotoExists s photoID).2 = s ∧
    (GetAllPhoto s).2 = s := by
  refine ⟨?_, ?_, ?_, PhotoExists_snd s photoID, ?_⟩
  · intro userName photoHash h key hk
    obtain ⟨hget, hput⟩ := CreatePhoto_ok_inv h
    rw [CreatePhoto_of_absent userName photoHash hget hput]
    exact lookupKey_putKey_other hk _ _
  · intro h key hk
    obtain ⟨_, e⟩ := DeletePhoto_ok_inv h
    rw [e]
    exact lookupKey_eraseKey_other hk _
  · unfold QueryPhoto Stub.GetState
    cases hg : s.getErr photoID with
    | some e => rfl
    | none =>
      cases hl : lookupKey photoID s.state with
      | none => rfl
      | some bytes =>
        simp only
        cases Unmarshal bytes <;> rfl
  · obtain ⟨state, getErr, putErr, delErr, rangeErr, nextErr, openIterators⟩ := s
    unfold GetAllPhoto Stub.GetStateByRange
    cases rangeErr with
    | some e => rfl
    | none => simp [Stub.closeIterator]

/-- C20 at the sample store: creating key `2` and deleting key `1` leave the bytes of key
`9`; reading key `9`, whose bytes do not decode, leaves the store as it is. -/
theorem C20_frame_witness :
    lookupKey (ascii "9") (CreatePhoto sampleStub (ascii "2") (ascii "Bob") []).2.state =
      lookupKey (ascii "9") sampleStub.state ∧
    lookupKey (ascii "9") (DeletePhoto sampleStub (ascii "1")).2.state =
      lookupKey (ascii "9") sampleStub.state ∧
    (QueryPhoto sampleStub (ascii "9")).2 = sampleStub ∧
    (GetAllPhoto sampleStub).2 = sampleStub :=
  ⟨(C20_frame sampleStub (ascii "2")).1 (ascii "Bob") [] (by decide) (ascii "9") (by decide),
    (C20_frame sampleStub (ascii "1")).2.1 (by decide) (ascii "9") (by decide),
    (C20_frame sampleStub (ascii "9")).2.2.1,
    (C20_frame sampleStub (ascii "9")).2.2.2.2⟩

end Chaincode
